import Mathlib

/-!
Verification of the engine-coordination and review/analysis subsystem of the
Chessy chess GUI (files `chess_gui.py` and `chessy.py`).

The development shallowly embeds the Python code:

* moves are opaque tokens (`Move := String`, UCI text);
* a board position is identified by the prefix of game moves replayed from the
  initial position (`update_review_position` rebuilds `review_board` by replaying
  `review_moves[:review_move_index]`, and `fen()` canonically identifies the
  replayed position, so `Position := List Move` is a faithful key);
* the evaluation cache (`review_analysis_cache` dict plus `_review_cache_order`
  list) is an association list with unique keys plus an insertion-order list;
* the GUI object's fields relevant to the review subsystem form `ReviewState`;
  Tk widget handles are modelled by presence flags plus the text/value they
  display; `root.after` timers are modelled by an id counter, the stored handle
  `review_after_id`, and the list of timers alive in the event loop;
* the external engine and rules library are collaborators: engine responses
  enter the model as explicit arguments, and `board.push`/`board.san` are
  modelled on prefix positions (appending the move; SAN rendered as the move
  token itself, which no claim inspects);
* the `engine_lock` discipline is modelled by a small interleaving semantics
  over lock/call instruction sequences, one per engine call site.
-/

namespace Chessy

/-- A chess move, treated as an opaque token with equality (UCI text). -/
abbrev Move := String

/-- A board position, identified by the move prefix replayed from the start
position.  `review_board.fen()` is in bijection with this prefix for the
positions the review subsystem visits. -/
abbrev Position := List Move

/-- The result content cached and applied by the review worker: the tuple
`(evaluation, label, arrows, lines)` built in the worker of
`_request_review_engine_analysis`. -/
structure AnalysisOut where
  evaluation : ℚ
  label : String
  arrows : List (Move × Nat)
  lines : List String
deriving Repr, DecidableEq, Inhabited

/-- Cache key: `(fen_snapshot, multipv)`, i.e. position plus search breadth. -/
abbrev CacheKey := Position × Nat

/-- `self._review_cache_max = 300`. -/
def review_cache_max : Nat := 300

/-- The evaluation cache: `review_analysis_cache` (an insertion-ordered dict,
modelled as an association list whose keys are unique) together with
`_review_cache_order`. -/
structure EvalCache where
  entries : List (CacheKey × AnalysisOut)
  order : List CacheKey
deriving Repr, DecidableEq

/-- Dict membership test `k in d`.  A Python dict holds each key at most once,
so the association-list operations below act on the first occurrence. -/
def hasKey : List (CacheKey × AnalysisOut) → CacheKey → Bool
  | [], _ => false
  | p :: t, k => p.1 = k || hasKey t k

/-- Dict write `d[k] = v`: replaces the (unique) existing entry in place, else
appends (Python dicts preserve insertion order). -/
def setKey : List (CacheKey × AnalysisOut) → CacheKey → AnalysisOut →
    List (CacheKey × AnalysisOut)
  | [], k, v => [(k, v)]
  | p :: t, k, v => if p.1 = k then (k, v) :: t else p :: setKey t k v

/-- Dict removal `d.pop(k, None)`: removes the (unique) entry if present. -/
def dropKey : List (CacheKey × AnalysisOut) → CacheKey → List (CacheKey × AnalysisOut)
  | [], _ => []
  | p :: t, k => if p.1 = k then t else p :: dropKey t k

/-- Dict read `d.get(k)`. -/
def lookupKey : List (CacheKey × AnalysisOut) → CacheKey → Option AnalysisOut
  | [], _ => none
  | p :: t, k => if p.1 = k then some p.2 else lookupKey t k

/-- The keys currently held by the dict. -/
def cacheKeys (c : EvalCache) : List CacheKey := c.entries.map (fun p => p.1)

/-- The cache write performed by the review worker:

    self.review_analysis_cache[cache_key] = (evaluation, label, arrows, lines)
    self._review_cache_order.append(cache_key)
    if len(self._review_cache_order) > self._review_cache_max:
        old_key = self._review_cache_order.pop(0)
        self.review_analysis_cache.pop(old_key, None) -/
def cachePut (c : EvalCache) (k : CacheKey) (v : AnalysisOut) : EvalCache :=
  let entries := setKey c.entries k v
  let order := c.order ++ [k]
  if review_cache_max < order.length then
    match order with
    | [] => { entries := entries, order := [] }
    | h :: t => { entries := dropKey entries h, order := t }
  else { entries := entries, order := order }

/-- The key evicted by a `cachePut` on cache `c`, if any: the head of the
insertion-order list once the new key is appended. -/
def evictedKey (c : EvalCache) (k : CacheKey) : Option CacheKey :=
  if review_cache_max < (c.order ++ [k]).length then (c.order ++ [k]).head? else none

/-- Invariant maintained by the cache: dict keys are distinct, every dict key is
tracked in the insertion-order list, and the order list never exceeds the
capacity. -/
structure CacheInvariant (c : EvalCache) : Prop where
  nodupKeys : (cacheKeys c).Nodup
  keysTracked : ∀ k ∈ cacheKeys c, k ∈ c.order
  orderLen : c.order.length ≤ review_cache_max

/-- The empty cache of `__init__`. -/
def emptyCache : EvalCache := { entries := [], order := [] }

/-- A record of one engine analysis request handed to a background worker
thread by `_request_review_engine_analysis` (the snapshots the worker
captures: position, multipv, think time, token, target ply). -/
structure DispatchRec where
  pos : Position
  multipv : Nat
  think : ℚ
  token : Nat
  ply : Nat
deriving Repr, DecidableEq

/-- A python-chess relative score, as inspected by `_convert_score_to_eval`:
either a mate distance (`score.is_mate()`, `relative.mate()`) or a centipawn
value (`relative.score()`), each possibly `None`. -/
inductive PovScore where
  | mate_in : Option Int → PovScore
  | cp_value : Option Int → PovScore
deriving Repr, DecidableEq

/-- One `info` dictionary returned by `engine.analyse`: the fields the worker
reads (`pv` with `or []` for absence, `score`, `depth`). -/
structure EngineInfo where
  pv : List Move
  score : Option PovScore
  depth : Option Nat
deriving Repr, DecidableEq

/-- Two-digit fractional part, as produced by float formatting. -/
def pad2 (n : Nat) : String := if n < 10 then "0" ++ toString n else toString n

/-- Rendering of the `+.2f` format for `pawns = cp / 100.0`: the float has an
exact two-decimal intended value, which the format reproduces. -/
def cp_label (cp : Int) : String :=
  (if 0 ≤ cp then "+" else "-") ++ toString (cp.natAbs / 100) ++ "." ++ pad2 (cp.natAbs % 100)

/-- `_convert_score_to_eval`: convert a python-chess score to
`(float evaluation, label)`. -/
def convert_score_to_eval : Option PovScore → ℚ × String
  | none => (0, "+0.00")
  | some (.mate_in m?) =>
    match m? with
    | none => (0, "#?")
    | some m => if 0 < m then (100, "#" ++ toString m) else (-100, "#-" ++ toString m.natAbs)
  | some (.cp_value c?) =>
    match c? with
    | none => (0, "+0.00")
    | some c => ((c : ℚ) / 100, cp_label c)

/-- Rendering of the `+.2f` format for `delta`; exact for the centipawn-granular
values the worker produces (all are integer multiples of 1/100). -/
def q_fmt2 (q : ℚ) : String := cp_label (Int.floor (q * 100))

/-- Modelled from the spec: the external rules library is an external
collaborator with `apply(position, move) -> position` (python-chess
`board.push`), modelled on positions identified by their move prefix. -/
def board_push (b : Position) (m : Move) : Position := b ++ [m]

/-- Modelled from the spec: the external rules library is an external
collaborator with `to_san(position, move) -> string` (python-chess
`board.san`).  SAN text is opaque to every claim, so the move token itself
stands in for its SAN rendering, and the `ValueError` branch of the worker
never fires in the model. -/
def board_san (_b : Position) (m : Move) : String := m

/-- `pv_limit = 4 if think_time < 0.35 else 6`. -/
def pv_limit_for (think : ℚ) : Nat := if think < 7/20 then 4 else 6

/-- The worker walk along a principal variation (`pv_board.san` then
`pv_board.push` for each move). -/
def san_walk : Position → List Move → List String
  | _, [] => []
  | b, m :: rest => board_san b m :: san_walk (board_push b m) rest

/-- Accumulator of the worker loop over `infos`: `arrows`, `lines`,
`evaluation`, `label`. -/
structure PvAcc where
  arrows : List (Move × Nat)
  lines : List String
  evaluation : ℚ
  label : String
deriving Repr, DecidableEq

/-- One iteration of `for idx, entry in enumerate(infos, start=1)` in the
review worker. -/
def process_entry (fen : Position) (think : ℚ) (acc : PvAcc) (idx : Nat)
    (entry : EngineInfo) : PvAcc :=
  match entry.pv with
  | [] => acc
  | mv :: _ =>
    let arrows := acc.arrows ++ [(mv, idx)]
    let conv := convert_score_to_eval entry.score
    let evaluation := if idx = 1 then conv.1 else acc.evaluation
    let label := if idx = 1 then conv.2 else acc.label
    let san_moves := san_walk fen (entry.pv.take (pv_limit_for think))
    let pv_text := if san_moves.isEmpty then mv else String.intercalate (" ") san_moves
    let depth_str :=
      match entry.depth with
      | some d => if d = 0 then "" else " (d" ++ toString d ++ ")"
      | none => ""
    let tag := if idx = 1 then "Best" else "#" ++ toString idx
    { arrows := arrows,
      lines := acc.lines ++ [tag ++ ": " ++ conv.2 ++ depth_str ++ " - " ++ pv_text],
      evaluation := evaluation, label := label }

/-- The whole worker loop over `infos`, with the 1-based index. -/
def process_entries (fen : Position) (think : ℚ) :
    List EngineInfo → Nat → PvAcc → PvAcc
  | [], _, acc => acc
  | e :: rest, idx, acc => process_entries fen think rest (idx + 1) (process_entry fen think acc idx e)

/-- The move-classification line inserted at the head of `lines` when the
worker compares the evaluation before and after the last played move. -/
def classification_line (pre post : ℚ × String) : String :=
  let delta := post.1 - pre.1
  let verdict :=
    if |delta| < 1/2 then "="
    else if 1/2 < delta then "Good"
    else if -1 < delta then "Inaccuracy"
    else if -2 < delta then "Mistake"
    else "Blunder"
  let icon := if verdict = "Inaccuracy" then "?!" else verdict
  icon ++ " - Last move impact: " ++ q_fmt2 delta ++ " (from " ++ pre.2 ++ " to " ++
    post.2 ++ ") - " ++ verdict

/-- A callback queued on the UI thread with `root.after(0, ...)` by a worker:
either a result application or an error application, carrying the
dispatch-time token and target ply. -/
inductive ReviewEvent where
  | result_delivery : Nat → Nat → ℚ → String → List (Move × Nat) → List String → ReviewEvent
  | error_delivery : Nat → Nat → String → ReviewEvent
deriving Repr, DecidableEq

/-- `self._review_debounce_ms = 160`. -/
def review_debounce_ms : Nat := 160

/-- The fields of the GUI object that the review/analysis subsystem reads and
writes.  Tk widget handles are modelled by a presence flag (`is not None`
and, for the window, `winfo_exists()`) plus the content they display;
`root.after` timers by the stored handle `_review_after_id`, the list of
timers alive in the event loop, and a fresh-id counter; `self.engine` by a
presence flag.  `time_var` is the parsed float of the Tk string variable
together with a flag recording whether parsing succeeds. -/
structure ReviewState where
  review_mode : Bool
  review_board_present : Bool
  review_moves : List Move
  review_move_index : Nat
  top_move_arrows : List (Move × Nat)
  cache : EvalCache
  review_ply_sans : List String
  updating_review_slider : Bool
  review_engine_token : Nat
  review_window_exists : Bool
  analysis_text_present : Bool
  eval_value_label_present : Bool
  engine_info_var_present : Bool
  move_label_present : Bool
  slider_present : Bool
  move_table_present : Bool
  review_row_ids_len : Nat
  table_selection : Option Nat
  eval_bar_value : ℚ
  eval_value_label_text : String
  engine_info_var_text : String
  analysis_text_content : String
  move_label_text : String
  slider_to : Nat
  slider_value : Nat
  review_after_id : Option Nat
  live_timers : List Nat
  next_timer_id : Nat
  review_slider_dragging : Bool
  engine_present : Bool
  time_var : ℚ
  time_var_valid : Bool
  review_best_only : Bool
  multipv_count : Nat
  dispatched : List DispatchRec
deriving Repr, DecidableEq

/-- The position snapshot `self.review_board.fen()`: `update_review_position`
rebuilds the board by replaying `review_moves[:review_move_index]`. -/
def review_position (s : ReviewState) : Position :=
  s.review_moves.take s.review_move_index

/-- The multipv in effect: `1` when the Best-only toggle is set, else
`max(1, int(self.multipv_count))`. -/
def review_multipv (s : ReviewState) : Nat :=
  if s.review_best_only then 1 else max 1 s.multipv_count

/-- The review think time: `float(self.time_var.get())` with `0.5` on parse
failure, then `max(0.15, min(t, 2.0)) * 0.6`. -/
def review_think_time (s : ReviewState) : ℚ :=
  let t := if s.time_var_valid then s.time_var else 1/2
  max (3/20) (min t 2) * (3/5)

/-- `_apply_review_engine_result`: update the UI when engine analysis
completes, unless the token or target ply is stale. -/
def apply_review_engine_result (s : ReviewState) (token ply : Nat)
    (evaluation : ℚ) (label : String) (arrows : List (Move × Nat))
    (lines : List String) : ReviewState :=
  if token ≠ s.review_engine_token ∨ ply ≠ s.review_move_index then s
  else
    let s1 := { s with top_move_arrows := arrows, eval_bar_value := evaluation }
    let s2 := if s1.eval_value_label_present then
        { s1 with eval_value_label_text := "Evaluation: " ++ label } else s1
    let s3 := if s2.analysis_text_present then
        { s2 with analysis_text_content := String.intercalate ("\n") lines ++ "\n" } else s2
    if s3.engine_info_var_present then
      { s3 with engine_info_var_text := "Suggestions updated." } else s3

/-- `(message or "Unknown error").splitlines()[0]`. -/
def first_line (message : String) : String :=
  let m := if message = "" then "Unknown error" else message
  (m.splitOn ("\n")).headD ""

/-- `_apply_review_engine_error`: handle engine failures gracefully, unless
the token or target ply is stale. -/
def apply_review_engine_error (s : ReviewState) (token ply : Nat)
    (message : String) : ReviewState :=
  if token ≠ s.review_engine_token ∨ ply ≠ s.review_move_index then s
  else
    let s1 := { s with top_move_arrows := [], eval_bar_value := 0 }
    let s2 := if s1.eval_value_label_present then
        { s1 with eval_value_label_text := "Evaluation: engine error" } else s1
    let s3 := if s2.analysis_text_present then
        { s2 with analysis_text_content := "Engine error: " ++ first_line message ++ "\n" } else s2
    if s3.engine_info_var_present then
      { s3 with engine_info_var_text := "Engine error." } else s3

/-- Delivery of a queued worker callback on the UI thread. -/
def deliver_event (s : ReviewState) : ReviewEvent → ReviewState
  | .result_delivery tok ply ev lab arr lns => apply_review_engine_result s tok ply ev lab arr lns
  | .error_delivery tok ply msg => apply_review_engine_error s tok ply msg

/-- `_request_review_engine_analysis`: cache fast path, else bump the token
and hand the snapshots to a background worker (recorded in `dispatched`). -/
def request_review_engine_analysis (s : ReviewState) : ReviewState :=
  if ¬ s.review_window_exists then s
  else if ¬ s.engine_present ∨ ¬ s.review_board_present then
    (if s.engine_info_var_present then
      { s with engine_info_var_text := "Engine not available. Configure Stockfish to see suggestions." }
     else s)
  else
    let multipv := review_multipv s
    let fen_snapshot := review_position s
    let ply_snapshot := s.review_move_index
    match lookupKey s.cache.entries (fen_snapshot, multipv) with
    | some v =>
        apply_review_engine_result s s.review_engine_token ply_snapshot
          v.evaluation v.label v.arrows v.lines
    | none =>
        let token := s.review_engine_token + 1
        { s with review_engine_token := token,
                 dispatched := s.dispatched ++
                   [{ pos := fen_snapshot, multipv := multipv,
                      think := review_think_time s, token := token, ply := ply_snapshot }] }

/-- The background worker spawned on a cache miss.  `engine_main` is the
outcome of the lock-guarded `engine.analyse` call (exception or `infos`);
`classify_infos` is the outcome of the optional move-classification calls
(`none` when any step of that `try` block raises, which is swallowed). -/
def review_worker (s : ReviewState) (token ply : Nat) (fen_snapshot : Position)
    (multipv : Nat) (think : ℚ)
    (engine_main : Except String (List EngineInfo))
    (classify_infos : Option (EngineInfo × EngineInfo)) : ReviewState × ReviewEvent :=
  match engine_main with
  | .error exc => (s, .error_delivery token ply exc)
  | .ok infos =>
    let acc := process_entries fen_snapshot think infos 1
      { arrows := [], lines := [], evaluation := 0, label := "+0.00" }
    let lines0 := if acc.lines.isEmpty then ["Engine did not return a principal variation."]
      else acc.lines
    let lines :=
      if 7/20 ≤ think ∧ 0 < ply ∧ ply ≤ s.review_moves.length then
        match classify_infos with
        | some pair =>
            classification_line (convert_score_to_eval pair.1.score)
              (convert_score_to_eval pair.2.score) :: lines0
        | none => lines0
      else lines0
    let out : AnalysisOut :=
      { evaluation := acc.evaluation, label := acc.label, arrows := acc.arrows, lines := lines }
    ({ s with cache := cachePut s.cache (fen_snapshot, multipv) out },
      .result_delivery token ply acc.evaluation acc.label acc.arrows lines)

/-- The shared cancel step (`root.after_cancel(self._review_after_id)` guarded
by a presence test, then clearing the handle), as performed by
`schedule_review_engine_analysis`, `_on_review_slider_press` and
`exit_review_mode`.  Cancelling is idempotent. -/
def cancel_pending_after (s : ReviewState) : ReviewState :=
  match s.review_after_id with
  | some i => { s with live_timers := s.live_timers.filter (fun t => t ≠ i),
                       review_after_id := none }
  | none => s

/-- `schedule_review_engine_analysis`: debounce review engine analysis
requests during scrubbing.  Cancels any pending timer and starts a fresh
`root.after(self._review_debounce_ms, _do)` one. -/
def schedule_review_engine_analysis (s : ReviewState) : ReviewState :=
  if ¬ s.review_window_exists then s
  else if s.review_slider_dragging then s
  else
    let s1 := cancel_pending_after s
    { s1 with review_after_id := some s1.next_timer_id,
              live_timers := s1.live_timers ++ [s1.next_timer_id],
              next_timer_id := s1.next_timer_id + 1 }

/-- The Tk event loop firing timer `i`: only a timer still alive can fire; the
`_do` callback clears the stored handle and runs
`_request_review_engine_analysis`. -/
def fire_timer (s : ReviewState) (i : Nat) : ReviewState :=
  if i ∈ s.live_timers then
    request_review_engine_analysis
      { s with live_timers := s.live_timers.filter (fun t => t ≠ i),
               review_after_id := none }
  else s

/-- Fire every currently pending timer (in creation order). -/
def fire_all_timers (s : ReviewState) : ReviewState := s.live_timers.foldl fire_timer s

/-- `_on_review_slider_press`. -/
def on_review_slider_press (s : ReviewState) : ReviewState :=
  cancel_pending_after { s with review_slider_dragging := true }

/-- `_on_review_slider_release`. -/
def on_review_slider_release (s : ReviewState) : ReviewState :=
  schedule_review_engine_analysis { s with review_slider_dragging := false }

/-- `_highlight_review_table`: highlight the current move row in the table. -/
def highlight_review_table (s : ReviewState) : ReviewState :=
  if ¬ s.move_table_present then s
  else
    let s1 := { s with table_selection := none }
    if s1.review_move_index = 0 ∨ s1.review_row_ids_len = 0 then s1
    else
      let row_idx := (s1.review_move_index - 1) / 2
      if s1.review_row_ids_len ≤ row_idx then s1
      else { s1 with table_selection := some row_idx }

/-- The side to move after replaying a given number of moves. -/
def side_to_move_text (pos : Position) : String :=
  if pos.length % 2 = 0 then "White" else "Black"

/-- The `detail` string of the review summary label. -/
def review_detail_text (s : ReviewState) : String :=
  if s.review_move_index = 0 then "Start position"
  else
    let last_san := (s.review_ply_sans.get? (s.review_move_index - 1)).getD ("(unknown)")
    let move_no := (s.review_move_index + 1) / 2
    let mover := if (s.review_move_index - 1) % 2 = 0 then "White" else "Black"
    "Last: " ++ mover ++ " " ++ last_san ++ " (move " ++ toString move_no ++ ")"

/-- The review summary label update of `update_review_position` (the label,
detail and side-to-move texts are computed from fields that the preceding
steps of the method do not modify). -/
def upd_move_label (s : ReviewState) : ReviewState :=
  if s.move_label_present then
    { s with move_label_text := "Move " ++ toString s.review_move_index ++ "/" ++
        toString s.review_moves.length ++ " | " ++ review_detail_text s ++ " | " ++
        side_to_move_text (review_position s) ++ " to move" }
  else s

/-- The slider sync of `update_review_position` (the feedback flag is raised
and lowered around it, ending lowered). -/
def upd_slider (s : ReviewState) : ReviewState :=
  if s.slider_present then
    { s with updating_review_slider := false,
             slider_to := max s.review_moves.length 1,
             slider_value := s.review_move_index }
  else s

/-- The placeholder redraw of `update_review_position`: clear the arrows, zero
the eval bar, and show the waiting texts. -/
def upd_placeholders (s : ReviewState) : ReviewState :=
  let s3 := { s with top_move_arrows := [], eval_bar_value := 0 }
  let s4 := if s3.eval_value_label_present then
      { s3 with eval_value_label_text := "Evaluation: ..." } else s3
  if s4.engine_info_var_present then
    { s4 with engine_info_var_text := "Analyzing position..." } else s4

/-- `update_review_position`: sync the review board, indicators, and engine
hints; schedules analysis unless the slider is being dragged. -/
def update_review_position (s : ReviewState) : ReviewState :=
  if ¬ s.review_board_present then s
  else
    let s6 := highlight_review_table (upd_placeholders (upd_slider (upd_move_label s)))
    if ¬ s6.review_slider_dragging then schedule_review_engine_analysis s6 else s6

/-- `max(0, min(index, len(self.review_moves)))`. -/
def clamp_ply (len : Nat) (index : Int) : Nat := (max 0 (min index (len : Int))).toNat

/-- `review_jump_to`, instrumented with whether the observers were refreshed
(i.e. whether `update_review_position` ran). -/
def review_jump_to_ex (s : ReviewState) (index : Int) : ReviewState × Bool :=
  if s.review_moves.isEmpty ∧ index ≠ 0 then (s, false)
  else
    let clamped := clamp_ply s.review_moves.length index
    if clamped = s.review_move_index then (s, false)
    else (update_review_position { s with review_move_index := clamped }, true)

/-- `review_jump_to`: jump to a specific half-move index. -/
def review_jump_to (s : ReviewState) (index : Int) : ReviewState :=
  (review_jump_to_ex s index).1

/-- `review_step`: move forward or backward by a single ply. -/
def review_step (s : ReviewState) (delta : Int) : ReviewState :=
  if s.review_moves.isEmpty then s
  else review_jump_to s ((s.review_move_index : Int) + delta)

/-- `exit_review_mode`: exit review mode and return to normal play.  Cancels
any pending scheduled analysis and increments the token to invalidate any
in-flight analysis. -/
def exit_review_mode (s : ReviewState) : ReviewState :=
  let s1 := cancel_pending_after { s with review_mode := false }
  { s1 with
    review_slider_dragging := false,
    review_board_present := false,
    review_moves := [],
    review_move_index := 0,
    top_move_arrows := [],
    review_ply_sans := [],
    review_engine_token := s1.review_engine_token + 1,
    review_window_exists := false,
    analysis_text_present := false,
    eval_value_label_present := false,
    engine_info_var_present := false,
    move_label_present := false,
    slider_present := false,
    move_table_present := false,
    review_row_ids_len := 0 }

/-- The field values set in `__init__`. -/
def initial_review_state : ReviewState :=
  { review_mode := false, review_board_present := false, review_moves := [],
    review_move_index := 0, top_move_arrows := [], cache := emptyCache,
    review_ply_sans := [], updating_review_slider := false, review_engine_token := 0,
    review_window_exists := false, analysis_text_present := false,
    eval_value_label_present := false, engine_info_var_present := false,
    move_label_present := false, slider_present := false, move_table_present := false,
    review_row_ids_len := 0, table_selection := none, eval_bar_value := 0,
    eval_value_label_text := "", engine_info_var_text := "", analysis_text_content := "",
    move_label_text := "", slider_to := 1, slider_value := 0, review_after_id := none,
    live_timers := [], next_timer_id := 0, review_slider_dragging := false,
    engine_present := false, time_var := 1, time_var_valid := true,
    review_best_only := false, multipv_count := 3, dispatched := [] }

/-- A concrete open review session over the scenario game
`[e2e4, e7e5, g1f3]` of the spec, used by the witnesses. -/
def demo_review_state : ReviewState :=
  { initial_review_state with
    review_mode := true, review_board_present := true, review_window_exists := true,
    engine_present := true, analysis_text_present := true,
    eval_value_label_present := true, engine_info_var_present := true,
    move_label_present := true, slider_present := true, move_table_present := true,
    review_moves := ["e2e4", "e7e5", "g1f3"],
    review_ply_sans := ["e4", "e5", "Nf3"], review_row_ids_len := 2 }

/-- The demo session with one debounce timer already pending, used by the C9
witness. -/
def c9_state : ReviewState :=
  { demo_review_state with
    review_after_id := some 0, live_timers := [0], next_timer_id := 1 }

/-- The concrete cache key, value and session used by the C5 witness: the
demo game viewed at ply 2, with the position for ply 2 already analyzed. -/
def c5_key : CacheKey := (["e2e4", "e7e5"], 3)

def c5_val : AnalysisOut :=
  { evaluation := 1/4, label := "+0.25", arrows := [("g1f3", 1)],
    lines := ["Best: +0.25 - g1f3"] }

def c5_state : ReviewState :=
  { demo_review_state with
    review_move_index := 2,
    cache := cachePut emptyCache c5_key c5_val }

/-- The review-session configuration, cache, token and dispatch log, which
navigation and (re)scheduling never change. -/
def SameCfg (s t : ReviewState) : Prop :=
  t.review_window_exists = s.review_window_exists ∧
  t.review_slider_dragging = s.review_slider_dragging ∧
  t.review_board_present = s.review_board_present ∧
  t.engine_present = s.engine_present ∧
  t.review_moves = s.review_moves ∧
  t.time_var = s.time_var ∧
  t.time_var_valid = s.time_var_valid ∧
  t.review_best_only = s.review_best_only ∧
  t.multipv_count = s.multipv_count ∧
  t.cache = s.cache ∧
  t.review_engine_token = s.review_engine_token ∧
  t.dispatched = s.dispatched

/-- The stable facts of an open, idle review session: window shown, slider not
held, board present, pending-timer bookkeeping consistent, cursor within the
move list. -/
def Ready (s : ReviewState) : Prop :=
  s.review_window_exists = true ∧ s.review_slider_dragging = false ∧
  s.review_board_present = true ∧ s.live_timers = s.review_after_id.toList ∧
  s.review_move_index ≤ s.review_moves.length

/-- One step of an engine-calling code path, for the `engine_lock` discipline:
entering/leaving `with self.engine_lock:` and entering/leaving the engine
call executed inside it. -/
inductive LInstr where
  | acquireL
  | releaseL
  | callBeginL
  | callEndL
deriving Repr, DecidableEq

/-- The instruction sequence one worker executes. -/
abbrev LProg := List LInstr

/-- Whether the lock is held after executing the given instructions. -/
def holdsB (l : LProg) : Bool :=
  l.foldl (fun h i =>
    match i with
    | LInstr.acquireL => true
    | LInstr.releaseL => false
    | _ => h) false

/-- Whether an engine call is executing after the given instructions. -/
def inCallB (l : LProg) : Bool :=
  l.foldl (fun h i =>
    match i with
    | LInstr.callBeginL => true
    | LInstr.callEndL => false
    | _ => h) false

/-- Whether the lock is held once the first `k` instructions have executed. -/
def holdsAt (p : LProg) (k : Nat) : Bool := holdsB (p.take k)

/-- Whether the engine call is executing once the first `k` instructions have
executed. -/
def inCallAt (p : LProg) (k : Nat) : Bool := inCallB (p.take k)

/-- A program is well locked when its engine calls only ever execute while the
lock is held. -/
def WellLocked (p : LProg) : Prop := ∀ k, inCallAt p k = true → holdsAt p k = true

/-- One `with self.engine_lock:` block around one engine call, as written at
every call site of `chess_gui.py` and `chessy.py`. -/
def lockSection : LProg :=
  [LInstr.acquireL, LInstr.callBeginL, LInstr.callEndL, LInstr.releaseL]

/-- `n` successive lock-guarded engine calls executed by one worker. -/
def sectionsProg : Nat → LProg
  | 0 => []
  | n + 1 => lockSection ++ sectionsProg n

/-- The interleaving state: `lock` is `self.engine_lock` (holding thread, if
any); `pcs t` counts the instructions thread `t` has executed. -/
structure LSys (T : Type) where
  lock : Option T
  pcs : T → Nat

/-- All workers start before their first instruction, lock free. -/
def lInit (T : Type) : LSys T := { lock := none, pcs := fun _ => 0 }

/-- One interleaving step: some thread executes its next instruction.
`threading.Lock.acquire` blocks unless the lock is free; the `with`
statement releases the lock its own thread holds; the engine call itself
does not touch the lock. -/
inductive LStep {T : Type} [DecidableEq T] (prog : T → LProg) : LSys T → LSys T → Prop where
  | acq (s : LSys T) (t : T) :
      (prog t)[s.pcs t]? = some LInstr.acquireL → s.lock = none →
      LStep prog s { lock := some t, pcs := Function.update s.pcs t (s.pcs t + 1) }
  | rel (s : LSys T) (t : T) :
      (prog t)[s.pcs t]? = some LInstr.releaseL → s.lock = some t →
      LStep prog s { lock := none, pcs := Function.update s.pcs t (s.pcs t + 1) }
  | callB (s : LSys T) (t : T) :
      (prog t)[s.pcs t]? = some LInstr.callBeginL →
      LStep prog s { lock := s.lock, pcs := Function.update s.pcs t (s.pcs t + 1) }
  | callE (s : LSys T) (t : T) :
      (prog t)[s.pcs t]? = some LInstr.callEndL →
      LStep prog s { lock := s.lock, pcs := Function.update s.pcs t (s.pcs t + 1) }

/-- States of the interleaving semantics reachable from the initial state. -/
def LReachable {T : Type} [DecidableEq T] (prog : T → LProg) (s : LSys T) : Prop :=
  Relation.ReflTransGen (LStep prog) (lInit T) s

/-- The lock invariant: the program counter of a thread sits inside a
lock-guarded region exactly when that thread holds the lock. -/
def LInv {T : Type} (prog : T → LProg) (s : LSys T) : Prop :=
  ∀ t, holdsAt (prog t) (s.pcs t) = true ↔ s.lock = some t

/-- The engine call sites of the repository, each as the lock/call instruction
sequence its worker executes:
`hint_play` is `calculate_hint` (`chess_gui.py` 398-400, `engine.play`);
`live_eval` is `get_position_evaluation` (`chess_gui.py` 2675-2677,
`engine.analyse`); `ai_move_play` is `ai_move` (`chessy.py` 432-433 and
`chess_gui.py` 3055-3056, `engine.play`); `review_quick` is the review
worker in quick mode (one `engine.analyse`, `chess_gui.py` 1723-1724);
`review_classify` is the review worker with move classification (that call
plus the two classification calls, `chess_gui.py` 1781-1786);
`game_analyse n` is the full-game review loop (`chess_gui.py` 915-933), two
calls per move of an `n`-move game. -/
inductive EngineCallSite where
  | hint_play
  | live_eval
  | ai_move_play
  | review_quick
  | review_classify
  | game_analyse : Nat → EngineCallSite
deriving Repr, DecidableEq

/-- The instruction sequence of each call site. -/
def progOf : EngineCallSite → LProg
  | EngineCallSite.hint_play => lockSection
  | EngineCallSite.live_eval => lockSection
  | EngineCallSite.ai_move_play => lockSection
  | EngineCallSite.review_quick => lockSection
  | EngineCallSite.review_classify => sectionsProg 3
  | EngineCallSite.game_analyse n => sectionsProg (2 * n)

/-- The state reached when one worker has acquired the lock and entered its
engine call. -/
def c1_state : LSys Bool :=
  { lock := some true,
    pcs := Function.update (Function.update (fun _ => 0) true 1) true 2 }

theorem emptyCache_invariant : CacheInvariant emptyCache :=
  ⟨List.nodup_nil, by intro k h; simp [emptyCache, cacheKeys] at h,
    by simp [emptyCache, review_cache_max]⟩

theorem hasKey_iff_mem (l : List (CacheKey × AnalysisOut)) (k : CacheKey) :
    hasKey l k = true ↔ k ∈ l.map (fun p => p.1) := by
  induction l with
  | nil => simp [hasKey]
  | cons p t ih =>
    by_cases hp : p.1 = k
    · simp [hasKey, hp]
    · simp [hasKey, hp, ih, Ne.symm hp]

theorem mem_keys_setKey (l : List (CacheKey × AnalysisOut)) (k x : CacheKey) (v : AnalysisOut) :
    x ∈ (setKey l k v).map (fun p => p.1) ↔ x ∈ l.map (fun p => p.1) ∨ x = k := by
  induction l with
  | nil => simp [setKey]
  | cons p t ih =>
    by_cases hp : p.1 = k
    · subst hp
      simp [setKey]
      tauto
    · simp [setKey, hp, ih]
      tauto

theorem mem_keys_of_mem_dropKey (l : List (CacheKey × AnalysisOut)) (k x : CacheKey)
    (h : x ∈ (dropKey l k).map (fun p => p.1)) : x ∈ l.map (fun p => p.1) := by
  induction l with
  | nil => simp [dropKey] at h
  | cons p t ih =>
    by_cases hp : p.1 = k
    · simp only [dropKey, if_pos hp] at h
      simp [h]
    · simp only [dropKey, if_neg hp, List.map_cons, List.mem_cons] at h ⊢
      rcases h with h | h
      · exact Or.inl h
      · exact Or.inr (ih h)

theorem mem_keys_dropKey (l : List (CacheKey × AnalysisOut)) (k x : CacheKey)
    (hnd : (l.map (fun p => p.1)).Nodup) :
    x ∈ (dropKey l k).map (fun p => p.1) ↔ x ∈ l.map (fun p => p.1) ∧ x ≠ k := by
  induction l with
  | nil => simp [dropKey]
  | cons p t ih =>
    rw [List.map_cons, List.nodup_cons] at hnd
    by_cases hp : p.1 = k
    · subst hp
      simp only [dropKey, if_pos rfl, List.map_cons, List.mem_cons]
      constructor
      · intro h
        refine ⟨Or.inr h, ?_⟩
        intro he
        exact hnd.1 (he ▸ h)
      · rintro ⟨h | h, hne⟩
        · exact absurd h hne
        · exact h
    · simp only [dropKey, if_neg hp, List.map_cons, List.mem_cons, ih hnd.2]
      constructor
      · rintro (h | ⟨h, hne⟩)
        · exact ⟨Or.inl h, fun he => hp (by rw [← h, he])⟩
        · exact ⟨Or.inr h, hne⟩
      · rintro ⟨h | h, hne⟩
        · exact Or.inl h
        · exact Or.inr ⟨h, hne⟩

theorem nodup_keys_setKey (l : List (CacheKey × AnalysisOut)) (k : CacheKey) (v : AnalysisOut)
    (h : (l.map (fun p => p.1)).Nodup) : ((setKey l k v).map (fun p => p.1)).Nodup := by
  induction l with
  | nil => simp [setKey]
  | cons p t ih =>
    rw [List.map_cons, List.nodup_cons] at h
    by_cases hp : p.1 = k
    · subst hp
      simp only [setKey, if_pos rfl, List.map_cons]
      exact List.nodup_cons.mpr h
    · simp only [setKey, if_neg hp, List.map_cons]
      refine List.nodup_cons.mpr ⟨?_, ih h.2⟩
      intro hc
      rcases (mem_keys_setKey t k p.1 v).mp hc with hm | hm
      · exact h.1 hm
      · exact hp hm

theorem nodup_keys_dropKey (l : List (CacheKey × AnalysisOut)) (k : CacheKey)
    (h : (l.map (fun p => p.1)).Nodup) : ((dropKey l k).map (fun p => p.1)).Nodup := by
  induction l with
  | nil => simp [dropKey]
  | cons p t ih =>
    rw [List.map_cons, List.nodup_cons] at h
    by_cases hp : p.1 = k
    · simp only [dropKey, if_pos hp]
      exact h.2
    · simp only [dropKey, if_neg hp, List.map_cons]
      refine List.nodup_cons.mpr ⟨?_, ih h.2⟩
      intro hc
      exact h.1 (mem_keys_of_mem_dropKey t k p.1 hc)

theorem lookup_setKey_self (l : List (CacheKey × AnalysisOut)) (k : CacheKey) (v : AnalysisOut) :
    lookupKey (setKey l k v) k = some v := by
  induction l with
  | nil => simp [setKey, lookupKey]
  | cons p t ih =>
    by_cases hp : p.1 = k
    · simp [setKey, hp, lookupKey]
    · simp [setKey, hp, lookupKey, ih]

theorem lookup_dropKey_ne (l : List (CacheKey × AnalysisOut)) (h k : CacheKey)
    (hne : k ≠ h) : lookupKey (dropKey l h) k = lookupKey l k := by
  induction l with
  | nil => simp [dropKey]
  | cons p t ih =>
    by_cases hp : p.1 = h
    · have hpk : ¬ p.1 = k := fun hc => hne (by rw [← hc, hp])
      simp [dropKey, hp, lookupKey, hpk, Ne.symm hne]
    · by_cases hpk : p.1 = k
      · simp [dropKey, hp, lookupKey, hpk, hne, Ne.symm hne]
      · simp [dropKey, hp, lookupKey, hpk, hne, Ne.symm hne, ih]

theorem length_setKey_le (l : List (CacheKey × AnalysisOut)) (k : CacheKey) (v : AnalysisOut) :
    (setKey l k v).length ≤ l.length + 1 := by
  induction l with
  | nil => simp [setKey]
  | cons p t ih =>
    by_cases hp : p.1 = k
    · simp [setKey, hp]
    · simp only [setKey, if_neg hp, List.length_cons]
      omega

theorem length_dropKey_le (l : List (CacheKey × AnalysisOut)) (k : CacheKey) :
    (dropKey l k).length ≤ l.length := by
  induction l with
  | nil => simp [dropKey]
  | cons p t ih =>
    by_cases hp : p.1 = k
    · simp [dropKey, hp]
    · simp only [dropKey, if_neg hp, List.length_cons]
      omega

theorem length_entries_le_order (c : EvalCache) (hinv : CacheInvariant c) :
    c.entries.length ≤ c.order.length := by
  have hkeys : c.entries.length = (cacheKeys c).length := by
    simp [cacheKeys]
  rw [hkeys]
  have hsub : (cacheKeys c).toFinset ⊆ c.order.toFinset := by
    intro x hx
    rw [List.mem_toFinset] at hx ⊢
    exact hinv.keysTracked x hx
  calc (cacheKeys c).length = (cacheKeys c).toFinset.card :=
        (List.toFinset_card_of_nodup hinv.nodupKeys).symm
    _ ≤ c.order.toFinset.card := Finset.card_le_card hsub
    _ ≤ c.order.length := List.toFinset_card_le c.order

theorem order_mem_keys_of_full (c : EvalCache) (hinv : CacheInvariant c)
    (hfull : c.entries.length = review_cache_max) :
    ∀ x ∈ c.order, x ∈ cacheKeys c := by
  have hlen : c.entries.length = (cacheKeys c).length := by simp [cacheKeys]
  have hsub : (cacheKeys c).toFinset ⊆ c.order.toFinset := by
    intro x hx
    rw [List.mem_toFinset] at hx ⊢
    exact hinv.keysTracked x hx
  have hcard : c.order.toFinset.card ≤ (cacheKeys c).toFinset.card := by
    rw [List.toFinset_card_of_nodup hinv.nodupKeys, ← hlen, hfull]
    calc c.order.toFinset.card ≤ c.order.length := List.toFinset_card_le c.order
      _ ≤ review_cache_max := hinv.orderLen
  have heq : (cacheKeys c).toFinset = c.order.toFinset :=
    Finset.eq_of_subset_of_card_le hsub hcard
  intro x hx
  rw [← List.mem_toFinset, ← heq, List.mem_toFinset] at hx
  exact hx

/-- When the order list is already at capacity, `cachePut` takes the eviction
branch: it pops the head of the insertion-order list and drops that key. -/
theorem cachePut_eviction_shape (c : EvalCache) (k : CacheKey) (v : AnalysisOut)
    (h1 : CacheKey) (t : List CacheKey) (horder : c.order = h1 :: t)
    (hlen : c.order.length = review_cache_max) :
    cachePut c k v =
      { entries := dropKey (setKey c.entries k v) h1, order := t ++ [k] } := by
  unfold cachePut
  have hgt : review_cache_max < (c.order ++ [k]).length := by
    rw [List.length_append, hlen]
    simp
  rw [if_pos hgt]
  rw [horder]
  rfl

/-- When the order list is below capacity, `cachePut` just writes and appends. -/
theorem cachePut_no_eviction_shape (c : EvalCache) (k : CacheKey) (v : AnalysisOut)
    (hlen : c.order.length < review_cache_max) :
    cachePut c k v =
      { entries := setKey c.entries k v, order := c.order ++ [k] } := by
  unfold cachePut
  have hle : ¬ review_cache_max < (c.order ++ [k]).length := by
    rw [List.length_append]
    simp
    omega
  rw [if_neg hle]

theorem cachePut_invariant (c : EvalCache) (k : CacheKey) (v : AnalysisOut)
    (hinv : CacheInvariant c) : CacheInvariant (cachePut c k v) := by
  rcases Nat.lt_or_ge c.order.length review_cache_max with hlt | hge
  · rw [cachePut_no_eviction_shape c k v hlt]
    refine ⟨nodup_keys_setKey _ _ _ hinv.nodupKeys, ?_, ?_⟩
    · intro x hx
      rcases (mem_keys_setKey c.entries k x v).mp hx with hm | hm
      · exact List.mem_append_left _ (hinv.keysTracked x hm)
      · subst hm
        exact List.mem_append_right _ (List.mem_singleton_self x)
    · rw [List.length_append]
      simp
      omega
  · have hlen : c.order.length = review_cache_max := Nat.le_antisymm hinv.orderLen hge
    have hne : c.order ≠ [] := by
      intro hnil
      rw [hnil] at hlen
      simp [review_cache_max] at hlen
    rcases List.exists_cons_of_ne_nil hne with ⟨h1, t, horder⟩
    rw [cachePut_eviction_shape c k v h1 t horder hlen]
    have hsk : ((setKey c.entries k v).map (fun p => p.1)).Nodup :=
      nodup_keys_setKey _ _ _ hinv.nodupKeys
    refine ⟨nodup_keys_dropKey _ _ hsk, ?_, ?_⟩
    · intro x hx
      unfold cacheKeys at hx
      have hmem := (mem_keys_dropKey (setKey c.entries k v) h1 x hsk).mp hx
      rcases (mem_keys_setKey c.entries k x v).mp hmem.1 with hm | hm
      · have := hinv.keysTracked x hm
        rw [horder] at this
        rcases List.mem_cons.mp this with he | ht
        · exact absurd he hmem.2
        · exact List.mem_append_left _ ht
      · subst hm
        exact List.mem_append_right _ (List.mem_singleton_self x)
    · have : c.order.length = t.length + 1 := by rw [horder]; rfl
      rw [List.length_append]
      simp only [List.length_singleton]
      omega

/-- C4.  After every `put` into the evaluation cache, the cache holds at most
`review_cache_max = 300` entries; and for every `put` performed when the
cache is at capacity, exactly one entry is removed, namely the single
oldest-inserted entry (the head of the insertion-order list: FIFO by
insertion order, which is the only order the code tracks). -/
theorem cache_put_bounded_and_fifo (c : EvalCache) (k : CacheKey) (v : AnalysisOut)
    (hinv : CacheInvariant c) :
    (cachePut c k v).entries.length ≤ review_cache_max ∧
    CacheInvariant (cachePut c k v) ∧
    (c.entries.length = review_cache_max →
      ∀ x, (x ∈ cacheKeys c ∧ x ∉ cacheKeys (cachePut c k v)) ↔ c.order.head? = some x) := by
  have hinv2 := cachePut_invariant c k v hinv
  refine ⟨le_trans (length_entries_le_order _ hinv2) hinv2.orderLen, hinv2, ?_⟩
  intro hfull x
  have hordlen : c.order.length = review_cache_max := by
    have h1 := length_entries_le_order c hinv
    have h2 := hinv.orderLen
    omega
  have hne : c.order ≠ [] := by
    intro hnil
    rw [hnil] at hordlen
    simp [review_cache_max] at hordlen
  rcases List.exists_cons_of_ne_nil hne with ⟨h1, t, horder⟩
  have hshape := cachePut_eviction_shape c k v h1 t horder hordlen
  have hsk : ((setKey c.entries k v).map (fun p => p.1)).Nodup :=
    nodup_keys_setKey _ _ _ hinv.nodupKeys
  rw [horder]
  simp only [List.head?_cons, Option.some.injEq]
  constructor
  · rintro ⟨hmem, hnot⟩
    by_contra hx
    apply hnot
    rw [hshape]
    unfold cacheKeys
    refine (mem_keys_dropKey (setKey c.entries k v) h1 x hsk).mpr ⟨?_, fun he => hx he.symm⟩
    exact (mem_keys_setKey c.entries k x v).mpr (Or.inl hmem)
  · intro hx
    subst hx
    constructor
    · exact order_mem_keys_of_full c hinv hfull h1 (by rw [horder]; exact List.mem_cons_self h1 t)
    · rw [hshape]
      unfold cacheKeys
      intro hc
      exact ((mem_keys_dropKey (setKey c.entries k v) h1 h1 hsk).mp hc).2 rfl

theorem apply_result_dispatched (s : ReviewState) (tok ply : Nat) (ev : ℚ) (lab : String)
    (arr : List (Move × Nat)) (lns : List String) :
    (apply_review_engine_result s tok ply ev lab arr lns).dispatched = s.dispatched := by
  simp only [apply_review_engine_result]
  split_ifs <;> rfl

theorem apply_result_token (s : ReviewState) (tok ply : Nat) (ev : ℚ) (lab : String)
    (arr : List (Move × Nat)) (lns : List String) :
    (apply_review_engine_result s tok ply ev lab arr lns).review_engine_token =
      s.review_engine_token := by
  simp only [apply_review_engine_result]
  split_ifs <;> rfl

theorem apply_result_cache (s : ReviewState) (tok ply : Nat) (ev : ℚ) (lab : String)
    (arr : List (Move × Nat)) (lns : List String) :
    (apply_review_engine_result s tok ply ev lab arr lns).cache = s.cache := by
  simp only [apply_review_engine_result]
  split_ifs <;> rfl

theorem cancel_pending_after_core (s : ReviewState) :
    (cancel_pending_after s).review_engine_token = s.review_engine_token ∧
    (cancel_pending_after s).review_move_index = s.review_move_index ∧
    (cancel_pending_after s).review_after_id = none ∨ cancel_pending_after s = s := by
  unfold cancel_pending_after
  cases s.review_after_id
  · right; rfl
  · left; exact ⟨rfl, rfl, rfl⟩

theorem cancel_pending_after_token (s : ReviewState) :
    (cancel_pending_after s).review_engine_token = s.review_engine_token := by
  unfold cancel_pending_after
  cases s.review_after_id <;> rfl

theorem cancel_pending_after_index (s : ReviewState) :
    (cancel_pending_after s).review_move_index = s.review_move_index := by
  unfold cancel_pending_after
  cases s.review_after_id <;> rfl

/-- C2.  For every delivered AnalysisResult whose originating token differs
from the current session token, or whose target ply differs from the
current review cursor, `_apply_review_engine_result` performs no mutation
of the visible evaluation state: the whole state is returned unchanged, in
particular no arrow update, no eval-bar redraw, and no label or
analysis-text change. -/
theorem stale_result_is_dropped (s : ReviewState) (token ply : Nat) (evaluation : ℚ)
    (label : String) (arrows : List (Move × Nat)) (lines : List String)
    (h : token ≠ s.review_engine_token ∨ ply ≠ s.review_move_index) :
    apply_review_engine_result s token ply evaluation label arrows lines = s := by
  unfold apply_review_engine_result
  rw [if_pos h]

/-- Witness for C2: a result with a stale token arriving at the demo session
leaves the state untouched. -/
theorem stale_result_is_dropped_witness :
    apply_review_engine_result demo_review_state 1 0 0 ("+0.00") [] [] = demo_review_state :=
  stale_result_is_dropped demo_review_state 1 0 0 ("+0.00") [] [] (Or.inl (by decide))

/-- C10.  Engine errors from stale requests are suppressed exactly like stale
successful results: when the originating token or the target ply is stale,
`_apply_review_engine_error` performs no UI mutation at all (no arrows
cleared, no eval-bar redraw, no error message shown): the state is returned
unchanged. -/
theorem stale_error_is_dropped (s : ReviewState) (token ply : Nat) (message : String)
    (h : token ≠ s.review_engine_token ∨ ply ≠ s.review_move_index) :
    apply_review_engine_error s token ply message = s := by
  unfold apply_review_engine_error
  rw [if_pos h]

/-- Witness for C10: an error report with a stale ply arriving at the demo
session leaves the state untouched. -/
theorem stale_error_is_dropped_witness :
    apply_review_engine_error demo_review_state 0 2 ("engine terminated") = demo_review_state :=
  stale_error_is_dropped demo_review_state 0 2 ("engine terminated") (Or.inr (by decide))

/-- C6.  Teardown of the review session increments the session token, so a
request dispatched before teardown (carrying the then-current token) is
discarded when its result arrives: the post-teardown state is not mutated
and the evaluation label is unchanged. -/
theorem exit_review_invalidates_inflight (s : ReviewState) (token ply : Nat)
    (evaluation : ℚ) (label : String) (arrows : List (Move × Nat)) (lines : List String)
    (h : token = s.review_engine_token) :
    (exit_review_mode s).review_engine_token = s.review_engine_token + 1 ∧
    apply_review_engine_result (exit_review_mode s) token ply evaluation label arrows lines
      = exit_review_mode s ∧
    (apply_review_engine_result (exit_review_mode s) token ply evaluation label arrows
      lines).eval_value_label_text = (exit_review_mode s).eval_value_label_text := by
  have htok : (exit_review_mode s).review_engine_token = s.review_engine_token + 1 := by
    unfold exit_review_mode
    simp [cancel_pending_after_token]
  have happ : apply_review_engine_result (exit_review_mode s) token ply evaluation label
      arrows lines = exit_review_mode s := by
    apply stale_result_is_dropped
    left
    rw [htok, h]
    omega
  exact ⟨htok, happ, by rw [happ]⟩

/-- Witness for C6: a request dispatched at the current token of the demo
session is dropped after teardown. -/
theorem exit_review_invalidates_inflight_witness :
    (exit_review_mode demo_review_state).review_engine_token =
      demo_review_state.review_engine_token + 1 ∧
    apply_review_engine_result (exit_review_mode demo_review_state) 0 0 0 ("+0.00") [] []
      = exit_review_mode demo_review_state ∧
    (apply_review_engine_result (exit_review_mode demo_review_state) 0 0 0 ("+0.00") [] []
      ).eval_value_label_text = (exit_review_mode demo_review_state).eval_value_label_text :=
  exit_review_invalidates_inflight demo_review_state 0 0 0 ("+0.00") [] [] (by decide)

theorem highlight_review_table_index (s : ReviewState) :
    (highlight_review_table s).review_move_index = s.review_move_index := by
  simp only [highlight_review_table]
  split_ifs <;> rfl

theorem schedule_review_engine_analysis_index (s : ReviewState) :
    (schedule_review_engine_analysis s).review_move_index = s.review_move_index := by
  simp only [schedule_review_engine_analysis]
  split_ifs <;> first | rfl | exact cancel_pending_after_index s

theorem upd_move_label_index (s : ReviewState) :
    (upd_move_label s).review_move_index = s.review_move_index := by
  unfold upd_move_label
  split_ifs <;> rfl

theorem upd_slider_index (s : ReviewState) :
    (upd_slider s).review_move_index = s.review_move_index := by
  unfold upd_slider
  split_ifs <;> rfl

theorem upd_placeholders_index (s : ReviewState) :
    (upd_placeholders s).review_move_index = s.review_move_index := by
  simp only [upd_placeholders]
  split_ifs <;> rfl

theorem update_review_position_index (s : ReviewState) :
    (update_review_position s).review_move_index = s.review_move_index := by
  simp only [update_review_position]
  split_ifs <;>
    simp [schedule_review_engine_analysis_index, highlight_review_table_index,
      upd_placeholders_index, upd_slider_index, upd_move_label_index]

/-- C7.  `review_jump_to` clamps the index to `[0, len(review_moves)]`; if the
clamped index equals the current cursor it is a no-op (state unchanged, no
observer refresh); otherwise it updates the cursor to the clamped index and
signals that observers should refresh (by running
`update_review_position`).  The hypothesis is the session invariant that
the cursor never exceeds the move-list length. -/
theorem review_jump_clamps (s : ReviewState) (i : Int)
    (hcur : s.review_move_index ≤ s.review_moves.length) :
    clamp_ply s.review_moves.length i ≤ s.review_moves.length ∧
    (clamp_ply s.review_moves.length i = s.review_move_index →
      review_jump_to_ex s i = (s, false)) ∧
    (clamp_ply s.review_moves.length i ≠ s.review_move_index →
      (review_jump_to_ex s i).2 = true ∧
      (review_jump_to_ex s i).1.review_move_index = clamp_ply s.review_moves.length i) := by
  refine ⟨?_, ?_, ?_⟩
  · unfold clamp_ply
    omega
  · intro heq
    unfold review_jump_to_ex
    split_ifs with h1
    · rcases h1 with ⟨hemp, hi⟩
      rfl
    · rw [if_pos heq]
  · intro hne
    unfold review_jump_to_ex
    split_ifs with h1
    · exfalso
      rcases h1 with ⟨hemp, hi⟩
      rw [List.isEmpty_iff] at hemp
      apply hne
      rw [hemp]
      rw [hemp] at hcur
      simp only [List.length_nil] at hcur ⊢
      unfold clamp_ply
      omega
    · rw [if_neg hne]
      refine ⟨rfl, ?_⟩
      simp only
      rw [update_review_position_index]

/-- Witness for C7 at the demo session with a deliberately out-of-range
index. -/
theorem review_jump_clamps_witness :
    demo_review_state.review_move_index ≤ demo_review_state.review_moves.length ∧
    (clamp_ply demo_review_state.review_moves.length 7 ≤
      demo_review_state.review_moves.length ∧
    (clamp_ply demo_review_state.review_moves.length 7 =
        demo_review_state.review_move_index →
      review_jump_to_ex demo_review_state 7 = (demo_review_state, false)) ∧
    (clamp_ply demo_review_state.review_moves.length 7 ≠
        demo_review_state.review_move_index →
      (review_jump_to_ex demo_review_state 7).2 = true ∧
      (review_jump_to_ex demo_review_state 7).1.review_move_index =
        clamp_ply demo_review_state.review_moves.length 7)) :=
  ⟨by decide, review_jump_clamps demo_review_state 7 (by decide)⟩

theorem apply_error_sets_label (s : ReviewState) (tok ply : Nat) (msg : String)
    (h1 : tok = s.review_engine_token) (h2 : ply = s.review_move_index)
    (h3 : s.eval_value_label_present = true) :
    (apply_review_engine_error s tok ply msg).eval_value_label_text =
      "Evaluation: engine error" := by
  simp only [apply_review_engine_error]
  rw [if_neg (by simp [h1, h2])]
  split_ifs <;> simp_all

/-- C8.  When the engine process is absent, `_request_review_engine_analysis`
reports unavailability on the status variable and returns: no worker is
spawned, no token is consumed and no cache entry is written.  When the
lock-guarded engine call raises mid-call, the worker returns before the
cache write, delivering an error callback instead; applying that callback
shows the failure in the evaluation label rather than crashing. -/
theorem engine_failure_is_no_result (s : ReviewState) (token ply : Nat)
    (fen : Position) (multipv : Nat) (think : ℚ) (msg : String)
    (cls : Option (EngineInfo × EngineInfo))
    (hw : s.review_window_exists = true) (hne : s.engine_present = false) :
    (request_review_engine_analysis s).cache = s.cache ∧
    (request_review_engine_analysis s).dispatched = s.dispatched ∧
    (request_review_engine_analysis s).review_engine_token = s.review_engine_token ∧
    (s.engine_info_var_present = true →
      (request_review_engine_analysis s).engine_info_var_text =
        "Engine not available. Configure Stockfish to see suggestions.") ∧
    (review_worker s token ply fen multipv think (Except.error msg) cls).1 = s ∧
    (review_worker s token ply fen multipv think (Except.error msg) cls).2 =
      ReviewEvent.error_delivery token ply msg ∧
    (token = s.review_engine_token → ply = s.review_move_index →
      s.eval_value_label_present = true →
      (deliver_event s (ReviewEvent.error_delivery token ply msg)).eval_value_label_text =
        "Evaluation: engine error") := by
  have hreq : request_review_engine_analysis s =
      (if s.engine_info_var_present then
        { s with engine_info_var_text :=
            "Engine not available. Configure Stockfish to see suggestions." }
       else s) := by
    simp only [request_review_engine_analysis]
    rw [if_neg (by simp [hw]), if_pos (by simp [hne])]
  refine ⟨?_, ?_, ?_, ?_, rfl, rfl, ?_⟩
  · rw [hreq]; split_ifs <;> rfl
  · rw [hreq]; split_ifs <;> rfl
  · rw [hreq]; split_ifs <;> rfl
  · intro hvar
    rw [hreq, if_pos hvar]
  · intro h1 h2 h3
    exact apply_error_sets_label s token ply msg h1 h2 h3

/-- Witness for C8: the demo session with the engine torn away, and a worker
whose engine call raised. -/
theorem engine_failure_is_no_result_witness :
    ({ demo_review_state with engine_present := false } : ReviewState).review_window_exists
      = true ∧
    ((request_review_engine_analysis { demo_review_state with engine_present := false }).cache
      = ({ demo_review_state with engine_present := false } : ReviewState).cache ∧
    (request_review_engine_analysis { demo_review_state with engine_present := false
      }).dispatched = ({ demo_review_state with engine_present := false } : ReviewState).dispatched ∧
    (request_review_engine_analysis { demo_review_state with engine_present := false
      }).review_engine_token =
      ({ demo_review_state with engine_present := false } : ReviewState).review_engine_token ∧
    (({ demo_review_state with engine_present := false } : ReviewState).engine_info_var_present
        = true →
      (request_review_engine_analysis { demo_review_state with engine_present := false
        }).engine_info_var_text =
        "Engine not available. Configure Stockfish to see suggestions.") ∧
    (review_worker { demo_review_state with engine_present := false } 0 0 [] 3 (1/2)
      (Except.error ("engine terminated")) none).1 =
      { demo_review_state with engine_present := false } ∧
    (review_worker { demo_review_state with engine_present := false } 0 0 [] 3 (1/2)
      (Except.error ("engine terminated")) none).2 =
      ReviewEvent.error_delivery 0 0 ("engine terminated") ∧
    (0 = ({ demo_review_state with engine_present := false } : ReviewState).review_engine_token →
     0 = ({ demo_review_state with engine_present := false } : ReviewState).review_move_index →
     ({ demo_review_state with engine_present := false } : ReviewState).eval_value_label_present
        = true →
      (deliver_event { demo_review_state with engine_present := false }
        (ReviewEvent.error_delivery 0 0 ("engine terminated"))).eval_value_label_text =
        "Evaluation: engine error")) :=
  ⟨by decide,
    engine_failure_is_no_result { demo_review_state with engine_present := false }
      0 0 [] 3 (1/2) ("engine terminated") none (by decide) (by decide)⟩

theorem lookup_cachePut_self (c : EvalCache) (k : CacheKey) (v : AnalysisOut)
    (hev : evictedKey c k ≠ some k) :
    lookupKey (cachePut c k v).entries k = some v := by
  simp only [cachePut]
  simp only [evictedKey] at hev
  by_cases hgt : review_cache_max < (c.order ++ [k]).length
  · rw [if_pos hgt] at hev ⊢
    rcases ho : c.order with _ | ⟨h1, t⟩
    · exfalso
      rw [ho] at hgt
      simp [review_cache_max] at hgt
    · rw [ho] at hev
      simp only [List.cons_append, List.head?_cons] at hev
      have hne : k ≠ h1 := fun he => hev (by rw [he])
      show lookupKey (dropKey (setKey c.entries k v) h1) k = some v
      rw [lookup_dropKey_ne _ _ _ hne]
      exact lookup_setKey_self c.entries k v
  · rw [if_neg hgt]
    exact lookup_setKey_self c.entries k v

/-- C5.  A (position, breadth) key analyzed once (written by `cachePut` and
not evicted by that very write) is found by the cache read of the second
request: the request applies exactly the stored AnalysisResult content
directly, and dispatches no second engine call (the dispatch log, the
session token, and the cache are all unchanged). -/
theorem cache_hit_applies_without_dispatch (c : EvalCache) (k : CacheKey) (v : AnalysisOut)
    (s : ReviewState)
    (hev : evictedKey c k ≠ some k)
    (hs : s.cache = cachePut c k v)
    (hkey : (review_position s, review_multipv s) = k)
    (hw : s.review_window_exists = true) (he : s.engine_present = true)
    (hb : s.review_board_present = true) :
    lookupKey s.cache.entries k = some v ∧
    (request_review_engine_analysis s).dispatched = s.dispatched ∧
    (request_review_engine_analysis s).review_engine_token = s.review_engine_token ∧
    (request_review_engine_analysis s).cache = s.cache ∧
    request_review_engine_analysis s =
      apply_review_engine_result s s.review_engine_token s.review_move_index
        v.evaluation v.label v.arrows v.lines := by
  have hlook : lookupKey s.cache.entries k = some v := by
    rw [hs]
    exact lookup_cachePut_self c k v hev
  have hreq : request_review_engine_analysis s =
      apply_review_engine_result s s.review_engine_token s.review_move_index
        v.evaluation v.label v.arrows v.lines := by
    simp only [request_review_engine_analysis]
    rw [if_neg (by simp [hw]), if_neg (by simp [he, hb]), hkey, hlook]
  refine ⟨hlook, ?_, ?_, ?_, hreq⟩
  · rw [hreq, apply_result_dispatched]
  · rw [hreq, apply_result_token]
  · rw [hreq, apply_result_cache]

/-- Witness for C5 at the concrete session `c5_state`. -/
theorem cache_hit_applies_without_dispatch_witness :
    lookupKey c5_state.cache.entries c5_key = some c5_val ∧
    (request_review_engine_analysis c5_state).dispatched = c5_state.dispatched ∧
    (request_review_engine_analysis c5_state).review_engine_token =
      c5_state.review_engine_token ∧
    (request_review_engine_analysis c5_state).cache = c5_state.cache ∧
    request_review_engine_analysis c5_state =
      apply_review_engine_result c5_state c5_state.review_engine_token
        c5_state.review_move_index c5_val.evaluation c5_val.label c5_val.arrows
        c5_val.lines :=
  cache_hit_applies_without_dispatch emptyCache c5_key c5_val c5_state
    (by decide) rfl (by decide) (by decide) (by decide) (by decide)

theorem sameCfg_refl (s : ReviewState) : SameCfg s s :=
  ⟨rfl, rfl, rfl, rfl, rfl, rfl, rfl, rfl, rfl, rfl, rfl, rfl⟩

theorem sameCfg_trans {a b c : ReviewState} (h1 : SameCfg a b) (h2 : SameCfg b c) :
    SameCfg a c := by
  obtain ⟨e1, e2, e3, e4, e5, e6, e7, e8, e9, e10, e11, e12⟩ := h1
  obtain ⟨f1, f2, f3, f4, f5, f6, f7, f8, f9, f10, f11, f12⟩ := h2
  exact ⟨f1.trans e1, f2.trans e2, f3.trans e3, f4.trans e4, f5.trans e5, f6.trans e6,
    f7.trans e7, f8.trans e8, f9.trans e9, f10.trans e10, f11.trans e11, f12.trans e12⟩

theorem sameCfg_upd_move_label (s : ReviewState) : SameCfg s (upd_move_label s) := by
  unfold upd_move_label
  split_ifs <;> exact ⟨rfl, rfl, rfl, rfl, rfl, rfl, rfl, rfl, rfl, rfl, rfl, rfl⟩

theorem sameCfg_upd_slider (s : ReviewState) : SameCfg s (upd_slider s) := by
  unfold upd_slider
  split_ifs <;> exact ⟨rfl, rfl, rfl, rfl, rfl, rfl, rfl, rfl, rfl, rfl, rfl, rfl⟩

theorem sameCfg_upd_placeholders (s : ReviewState) : SameCfg s (upd_placeholders s) := by
  simp only [upd_placeholders]
  split_ifs <;> exact ⟨rfl, rfl, rfl, rfl, rfl, rfl, rfl, rfl, rfl, rfl, rfl, rfl⟩

theorem sameCfg_highlight (s : ReviewState) : SameCfg s (highlight_review_table s) := by
  simp only [highlight_review_table]
  split_ifs <;> exact ⟨rfl, rfl, rfl, rfl, rfl, rfl, rfl, rfl, rfl, rfl, rfl, rfl⟩

theorem sameCfg_cancel (s : ReviewState) : SameCfg s (cancel_pending_after s) := by
  unfold cancel_pending_after
  cases s.review_after_id <;>
    exact ⟨rfl, rfl, rfl, rfl, rfl, rfl, rfl, rfl, rfl, rfl, rfl, rfl⟩

theorem sameCfg_schedule (s : ReviewState) : SameCfg s (schedule_review_engine_analysis s) := by
  simp only [schedule_review_engine_analysis]
  split_ifs <;> first
    | exact sameCfg_refl s
    | exact sameCfg_cancel s

theorem sameCfg_update (s : ReviewState) : SameCfg s (update_review_position s) := by
  have hchain : SameCfg s
      (highlight_review_table (upd_placeholders (upd_slider (upd_move_label s)))) :=
    sameCfg_trans (sameCfg_trans (sameCfg_trans (sameCfg_upd_move_label s)
      (sameCfg_upd_slider _)) (sameCfg_upd_placeholders _)) (sameCfg_highlight _)
  simp only [update_review_position]
  split_ifs <;> first
    | exact sameCfg_refl s
    | exact sameCfg_trans hchain (sameCfg_schedule _)
    | exact hchain

theorem sameCfg_jump (s : ReviewState) (i : Int) : SameCfg s (review_jump_to s i) := by
  simp only [review_jump_to, review_jump_to_ex]
  split_ifs <;> first
    | exact sameCfg_refl s
    | exact sameCfg_trans
        (⟨rfl, rfl, rfl, rfl, rfl, rfl, rfl, rfl, rfl, rfl, rfl, rfl⟩ :
          SameCfg s { s with review_move_index := clamp_ply s.review_moves.length i })
        (sameCfg_update _)

theorem upd_move_label_timers (s : ReviewState) :
    (upd_move_label s).review_after_id = s.review_after_id ∧
    (upd_move_label s).live_timers = s.live_timers ∧
    (upd_move_label s).next_timer_id = s.next_timer_id := by
  unfold upd_move_label
  split_ifs <;> exact ⟨rfl, rfl, rfl⟩

theorem upd_slider_timers (s : ReviewState) :
    (upd_slider s).review_after_id = s.review_after_id ∧
    (upd_slider s).live_timers = s.live_timers ∧
    (upd_slider s).next_timer_id = s.next_timer_id := by
  unfold upd_slider
  split_ifs <;> exact ⟨rfl, rfl, rfl⟩

theorem upd_placeholders_timers (s : ReviewState) :
    (upd_placeholders s).review_after_id = s.review_after_id ∧
    (upd_placeholders s).live_timers = s.live_timers ∧
    (upd_placeholders s).next_timer_id = s.next_timer_id := by
  simp only [upd_placeholders]
  split_ifs <;> exact ⟨rfl, rfl, rfl⟩

theorem highlight_timers (s : ReviewState) :
    (highlight_review_table s).review_after_id = s.review_after_id ∧
    (highlight_review_table s).live_timers = s.live_timers ∧
    (highlight_review_table s).next_timer_id = s.next_timer_id := by
  simp only [highlight_review_table]
  split_ifs <;> exact ⟨rfl, rfl, rfl⟩

theorem pieces_timers (s : ReviewState) :
    (highlight_review_table (upd_placeholders (upd_slider
      (upd_move_label s)))).review_after_id = s.review_after_id ∧
    (highlight_review_table (upd_placeholders (upd_slider
      (upd_move_label s)))).live_timers = s.live_timers ∧
    (highlight_review_table (upd_placeholders (upd_slider
      (upd_move_label s)))).next_timer_id = s.next_timer_id := by
  obtain ⟨a1, a2, a3⟩ := upd_move_label_timers s
  obtain ⟨b1, b2, b3⟩ := upd_slider_timers (upd_move_label s)
  obtain ⟨c1, c2, c3⟩ := upd_placeholders_timers (upd_slider (upd_move_label s))
  obtain ⟨d1, d2, d3⟩ := highlight_timers (upd_placeholders (upd_slider (upd_move_label s)))
  exact ⟨by rw [d1, c1, b1, a1], by rw [d2, c2, b2, a2], by rw [d3, c3, b3, a3]⟩

theorem cancel_timers (s : ReviewState) (ht : s.live_timers = s.review_after_id.toList) :
    (cancel_pending_after s).live_timers = [] ∧
    (cancel_pending_after s).review_after_id = none ∧
    (cancel_pending_after s).next_timer_id = s.next_timer_id := by
  cases h : s.review_after_id with
  | none =>
    rw [h] at ht
    simp only [Option.toList] at ht
    unfold cancel_pending_after
    rw [h]
    exact ⟨ht, h, rfl⟩
  | some i =>
    rw [h] at ht
    simp only [Option.toList] at ht
    unfold cancel_pending_after
    rw [h]
    refine ⟨?_, rfl, rfl⟩
    simp [ht]

theorem schedule_timers (s : ReviewState) (hw : s.review_window_exists = true)
    (hd : s.review_slider_dragging = false)
    (ht : s.live_timers = s.review_after_id.toList) :
    (schedule_review_engine_analysis s).review_after_id = some s.next_timer_id ∧
    (schedule_review_engine_analysis s).live_timers = [s.next_timer_id] ∧
    (schedule_review_engine_analysis s).next_timer_id = s.next_timer_id + 1 := by
  unfold schedule_review_engine_analysis
  rw [if_neg (by simp [hw]), if_neg (by simp [hd])]
  obtain ⟨hl, _, hn⟩ := cancel_timers s ht
  refine ⟨?_, ?_, ?_⟩
  · show some (cancel_pending_after s).next_timer_id = some s.next_timer_id
    rw [hn]
  · show (cancel_pending_after s).live_timers ++ [(cancel_pending_after s).next_timer_id] =
      [s.next_timer_id]
    rw [hl, hn]
    rfl
  · show (cancel_pending_after s).next_timer_id + 1 = s.next_timer_id + 1
    rw [hn]

theorem update_timers (s : ReviewState) (hb : s.review_board_present = true)
    (hw : s.review_window_exists = true) (hd : s.review_slider_dragging = false)
    (ht : s.live_timers = s.review_after_id.toList) :
    (update_review_position s).review_after_id = some s.next_timer_id ∧
    (update_review_position s).live_timers = [s.next_timer_id] ∧
    (update_review_position s).next_timer_id = s.next_timer_id + 1 := by
  obtain ⟨p1, p2, p3⟩ := pieces_timers s
  have hcfg : SameCfg s
      (highlight_review_table (upd_placeholders (upd_slider (upd_move_label s)))) :=
    sameCfg_trans (sameCfg_trans (sameCfg_trans (sameCfg_upd_move_label s)
      (sameCfg_upd_slider _)) (sameCfg_upd_placeholders _)) (sameCfg_highlight _)
  obtain ⟨q1, q2, q3⟩ := schedule_timers
    (highlight_review_table (upd_placeholders (upd_slider (upd_move_label s))))
    (by rw [hcfg.1, hw]) (by rw [hcfg.2.1, hd]) (by rw [p1, p2, ht])
  simp only [update_review_position]
  rw [if_neg (by simp [hb]), if_pos (by rw [hcfg.2.1, hd]; simp)]
  exact ⟨by rw [q1, p3], by rw [q2, p3], by rw [q3, p3]⟩

theorem update_timers_dragging (s : ReviewState) (hd : s.review_slider_dragging = true) :
    (update_review_position s).review_after_id = s.review_after_id ∧
    (update_review_position s).live_timers = s.live_timers ∧
    (update_review_position s).next_timer_id = s.next_timer_id := by
  have hcfg : SameCfg s
      (highlight_review_table (upd_placeholders (upd_slider (upd_move_label s)))) :=
    sameCfg_trans (sameCfg_trans (sameCfg_trans (sameCfg_upd_move_label s)
      (sameCfg_upd_slider _)) (sameCfg_upd_placeholders _)) (sameCfg_highlight _)
  obtain ⟨p1, p2, p3⟩ := pieces_timers s
  simp only [update_review_position]
  by_cases hb : s.review_board_present = true
  · rw [if_neg (by simp [hb]), if_neg (by rw [hcfg.2.1, hd]; simp)]
    exact ⟨p1, p2, p3⟩
  · rw [if_pos (by simpa using hb)]
    exact ⟨rfl, rfl, rfl⟩

theorem jump_timers_dragging (s : ReviewState) (i : Int)
    (hd : s.review_slider_dragging = true) :
    (review_jump_to s i).review_after_id = s.review_after_id ∧
    (review_jump_to s i).live_timers = s.live_timers ∧
    (review_jump_to s i).next_timer_id = s.next_timer_id := by
  simp only [review_jump_to, review_jump_to_ex]
  split_ifs <;> first
    | exact ⟨rfl, rfl, rfl⟩
    | exact update_timers_dragging
        { s with review_move_index := clamp_ply s.review_moves.length i } hd

theorem jump_ready (s : ReviewState) (i : Int) (h : Ready s) :
    Ready (review_jump_to s i) ∧
    ((review_jump_to s i = s ∧
        clamp_ply s.review_moves.length i = s.review_move_index) ∨
      ((review_jump_to s i).review_after_id = some s.next_timer_id ∧
       (review_jump_to s i).live_timers = [s.next_timer_id] ∧
       (review_jump_to s i).review_move_index = clamp_ply s.review_moves.length i)) := by
  obtain ⟨hw, hd, hb, ht, hcur⟩ := h
  simp only [review_jump_to, review_jump_to_ex]
  by_cases h1 : s.review_moves.isEmpty = true ∧ ¬ i = 0
  · rw [if_pos h1]
    have hclamp : clamp_ply s.review_moves.length i = s.review_move_index := by
      rcases h1 with ⟨hemp, _⟩
      rw [List.isEmpty_iff] at hemp
      rw [hemp]
      rw [hemp] at hcur
      simp only [List.length_nil] at hcur ⊢
      unfold clamp_ply
      omega
    exact ⟨⟨hw, hd, hb, ht, hcur⟩, Or.inl ⟨rfl, hclamp⟩⟩
  · rw [if_neg h1]
    by_cases h2 : clamp_ply s.review_moves.length i = s.review_move_index
    · rw [if_pos h2]
      exact ⟨⟨hw, hd, hb, ht, hcur⟩, Or.inl ⟨rfl, h2⟩⟩
    · rw [if_neg h2]
      dsimp only
      have hclmax : clamp_ply s.review_moves.length i ≤ s.review_moves.length := by
        unfold clamp_ply
        omega
      obtain ⟨u1, u2, u3⟩ := update_timers
        { s with review_move_index := clamp_ply s.review_moves.length i } hb hw hd ht
      have hcfgu := sameCfg_update
        { s with review_move_index := clamp_ply s.review_moves.length i }
      have hidx := update_review_position_index
        { s with review_move_index := clamp_ply s.review_moves.length i }
      refine ⟨⟨?_, ?_, ?_, ?_, ?_⟩, Or.inr ⟨u1, u2, hidx⟩⟩
      · rw [hcfgu.1]
        exact hw
      · rw [hcfgu.2.1]
        exact hd
      · rw [hcfgu.2.2.1]
        exact hb
      · rw [u1, u2]
        rfl
      · rw [hidx, hcfgu.2.2.2.2.1]
        exact hclmax

theorem foldl_jump_ready (js : List Int) (s : ReviewState) (h : Ready s) :
    Ready (js.foldl review_jump_to s) ∧
    SameCfg s (js.foldl review_jump_to s) ∧
    (s.review_after_id.isSome = true →
      (js.foldl review_jump_to s).review_after_id.isSome = true) := by
  induction js generalizing s with
  | nil => exact ⟨h, sameCfg_refl s, fun hs => hs⟩
  | cons j rest ih =>
    simp only [List.foldl_cons]
    obtain ⟨hr1, hj⟩ := jump_ready s j h
    obtain ⟨r1, r2, r3⟩ := ih (review_jump_to s j) hr1
    refine ⟨r1, sameCfg_trans (sameCfg_jump s j) r2, ?_⟩
    intro hs
    apply r3
    rcases hj with ⟨he, _⟩ | ⟨ha, _, _⟩
    · rw [he]
      exact hs
    · rw [ha]
      rfl

theorem fire_all_empty (s : ReviewState) (hl : s.live_timers = []) :
    fire_all_timers s = s := by
  unfold fire_all_timers
  rw [hl]
  rfl

theorem fire_all_single (s : ReviewState) (i : Nat)
    (hl : s.live_timers = [i]) (hw : s.review_window_exists = true)
    (he : s.engine_present = true) (hb : s.review_board_present = true)
    (hmiss : lookupKey s.cache.entries (review_position s, review_multipv s) = none) :
    (fire_all_timers s).dispatched = s.dispatched ++
      [{ pos := review_position s, multipv := review_multipv s,
         think := review_think_time s, token := s.review_engine_token + 1,
         ply := s.review_move_index }] ∧
    (fire_all_timers s).review_engine_token = s.review_engine_token + 1 ∧
    (fire_all_timers s).live_timers = [] := by
  unfold fire_all_timers
  rw [hl]
  simp only [List.foldl_cons, List.foldl_nil]
  unfold fire_timer
  rw [hl]
  rw [if_pos (List.mem_singleton_self i)]
  have hfil : [i].filter (fun t => t ≠ i) = [] := by simp
  rw [hfil]
  have hmiss2 : lookupKey
      ({ s with live_timers := ([] : List Nat), review_after_id := none } :
        ReviewState).cache.entries
      (review_position { s with live_timers := ([] : List Nat), review_after_id := none },
       review_multipv { s with live_timers := ([] : List Nat), review_after_id := none }) =
      none := hmiss
  simp only [request_review_engine_analysis]
  rw [if_neg (by simp [hw]), if_neg (by simp [he, hb]), hmiss2]
  exact ⟨rfl, rfl, rfl⟩

/-- C3.  For every sequence of `jump` navigation calls all arriving before the
debounce timer fires, each new schedule cancels the previously pending
timer (at most one timer is ever pending throughout); when the single
surviving timer fires, exactly one engine call is dispatched, and it is for
the final position of the sequence only (the hypotheses say the session is
idle, the first jump actually moves the cursor, and the final position is
not cached; a cached final position is served without any engine call, per
C5). -/
theorem debounce_coalesces_rapid_jumps (s : ReviewState) (j : Int) (js : List Int)
    (hr : Ready s) (_ha : s.review_after_id = none) (he : s.engine_present = true)
    (hj : clamp_ply s.review_moves.length j ≠ s.review_move_index)
    (hmiss : lookupKey ((j :: js).foldl review_jump_to s).cache.entries
       (review_position ((j :: js).foldl review_jump_to s),
        review_multipv ((j :: js).foldl review_jump_to s)) = none) :
    (∀ n : Nat, (((j :: js).take n).foldl review_jump_to s).live_timers.length ≤ 1) ∧
    ((j :: js).foldl review_jump_to s).dispatched = s.dispatched ∧
    (fire_all_timers ((j :: js).foldl review_jump_to s)).dispatched =
      s.dispatched ++
        [{ pos := review_position ((j :: js).foldl review_jump_to s),
           multipv := review_multipv ((j :: js).foldl review_jump_to s),
           think := review_think_time ((j :: js).foldl review_jump_to s),
           token := ((j :: js).foldl review_jump_to s).review_engine_token + 1,
           ply := ((j :: js).foldl review_jump_to s).review_move_index }] := by
  have hbound : ∀ n : Nat,
      (((j :: js).take n).foldl review_jump_to s).live_timers.length ≤ 1 := by
    intro n
    obtain ⟨⟨_, _, _, hts, _⟩, _, _⟩ := foldl_jump_ready ((j :: js).take n) s hr
    rw [hts]
    cases (((j :: js).take n).foldl review_jump_to s).review_after_id <;> simp
  obtain ⟨hrf, hcf, _⟩ := foldl_jump_ready (j :: js) s hr
  have hdisp : ((j :: js).foldl review_jump_to s).dispatched = s.dispatched :=
    hcf.2.2.2.2.2.2.2.2.2.2.2
  obtain ⟨hr1, hj1⟩ := jump_ready s j hr
  have h1some : (review_jump_to s j).review_after_id.isSome = true := by
    rcases hj1 with ⟨_, hclamp⟩ | ⟨ha1, _, _⟩
    · exact absurd hclamp hj
    · rw [ha1]
      rfl
  obtain ⟨_, _, hsome1⟩ := foldl_jump_ready js (review_jump_to s j) hr1
  have hfinsome : ((j :: js).foldl review_jump_to s).review_after_id.isSome = true := by
    simp only [List.foldl_cons]
    exact hsome1 h1some
  obtain ⟨tid, htid⟩ := Option.isSome_iff_exists.mp hfinsome
  have hlive : ((j :: js).foldl review_jump_to s).live_timers = [tid] := by
    rw [hrf.2.2.2.1, htid]
    rfl
  obtain ⟨f1, _, _⟩ := fire_all_single ((j :: js).foldl review_jump_to s) tid hlive
    hrf.1 (by rw [hcf.2.2.2.1]; exact he) hrf.2.2.1 hmiss
  refine ⟨hbound, hdisp, ?_⟩
  rw [f1, hdisp]

/-- Witness for C3: the scenario of the spec, on the demo game: `jump(2)`
immediately followed by `jump(3)` before the debounce timer fires, then the
timer fires. -/
theorem debounce_coalesces_rapid_jumps_witness :
    (∀ n : Nat,
      ((([(2 : Int), 3]).take n).foldl review_jump_to demo_review_state).live_timers.length
        ≤ 1) ∧
    (([(2 : Int), 3]).foldl review_jump_to demo_review_state).dispatched =
      demo_review_state.dispatched ∧
    (fire_all_timers (([(2 : Int), 3]).foldl review_jump_to demo_review_state)).dispatched =
      demo_review_state.dispatched ++
        [{ pos := review_position (([(2 : Int), 3]).foldl review_jump_to demo_review_state),
           multipv := review_multipv (([(2 : Int), 3]).foldl review_jump_to demo_review_state),
           think := review_think_time (([(2 : Int), 3]).foldl review_jump_to demo_review_state),
           token := (([(2 : Int), 3]).foldl review_jump_to demo_review_state).review_engine_token
             + 1,
           ply := (([(2 : Int), 3]).foldl review_jump_to demo_review_state).review_move_index }]
    :=
  debounce_coalesces_rapid_jumps demo_review_state 2 [3]
    ⟨by decide, by decide, by decide, by decide, by decide⟩ (by decide) (by decide)
    (by decide) (by decide)

theorem press_spec (s : ReviewState) (ht : s.live_timers = s.review_after_id.toList) :
    (on_review_slider_press s).live_timers = [] ∧
    (on_review_slider_press s).review_after_id = none ∧
    (on_review_slider_press s).review_slider_dragging = true ∧
    (on_review_slider_press s).review_window_exists = s.review_window_exists ∧
    (on_review_slider_press s).review_board_present = s.review_board_present ∧
    (on_review_slider_press s).engine_present = s.engine_present ∧
    (on_review_slider_press s).review_moves = s.review_moves ∧
    (on_review_slider_press s).review_move_index = s.review_move_index ∧
    (on_review_slider_press s).cache = s.cache ∧
    (on_review_slider_press s).review_engine_token = s.review_engine_token ∧
    (on_review_slider_press s).dispatched = s.dispatched := by
  unfold on_review_slider_press
  obtain ⟨c1, c2, _⟩ := cancel_timers { s with review_slider_dragging := true } ht
  have hc := sameCfg_cancel { s with review_slider_dragging := true }
  refine ⟨c1, c2, ?_, ?_, ?_, ?_, ?_, ?_, ?_, ?_, ?_⟩
  · rw [hc.2.1]
  · rw [hc.1]
  · rw [hc.2.2.1]
  · rw [hc.2.2.2.1]
  · rw [hc.2.2.2.2.1]
  · exact cancel_pending_after_index _
  · rw [hc.2.2.2.2.2.2.2.2.2.1]
  · rw [hc.2.2.2.2.2.2.2.2.2.2.1]
  · rw [hc.2.2.2.2.2.2.2.2.2.2.2]

theorem foldl_jump_dragging (js : List Int) (s : ReviewState)
    (hd : s.review_slider_dragging = true) :
    SameCfg s (js.foldl review_jump_to s) ∧
    (js.foldl review_jump_to s).review_after_id = s.review_after_id ∧
    (js.foldl review_jump_to s).live_timers = s.live_timers := by
  induction js generalizing s with
  | nil => exact ⟨sameCfg_refl s, rfl, rfl⟩
  | cons j rest ih =>
    simp only [List.foldl_cons]
    have hd1 : (review_jump_to s j).review_slider_dragging = true := by
      rw [(sameCfg_jump s j).2.1]
      exact hd
    obtain ⟨i1, i2, i3⟩ := ih (review_jump_to s j) hd1
    obtain ⟨t1, t2, _⟩ := jump_timers_dragging s j hd
    exact ⟨sameCfg_trans (sameCfg_jump s j) i1, by rw [i2, t1], by rw [i3, t2]⟩

theorem release_spec (s : ReviewState) (hw : s.review_window_exists = true)
    (ht : s.live_timers = s.review_after_id.toList) :
    (on_review_slider_release s).review_after_id = some s.next_timer_id ∧
    (on_review_slider_release s).live_timers = [s.next_timer_id] ∧
    (on_review_slider_release s).review_slider_dragging = false ∧
    (on_review_slider_release s).review_window_exists = s.review_window_exists ∧
    (on_review_slider_release s).review_board_present = s.review_board_present ∧
    (on_review_slider_release s).engine_present = s.engine_present ∧
    (on_review_slider_release s).review_moves = s.review_moves ∧
    (on_review_slider_release s).review_move_index = s.review_move_index ∧
    (on_review_slider_release s).cache = s.cache ∧
    (on_review_slider_release s).review_engine_token = s.review_engine_token ∧
    (on_review_slider_release s).dispatched = s.dispatched := by
  unfold on_review_slider_release
  obtain ⟨q1, q2, _⟩ := schedule_timers { s with review_slider_dragging := false } hw rfl ht
  have hs := sameCfg_schedule { s with review_slider_dragging := false }
  refine ⟨q1, q2, ?_, ?_, ?_, ?_, ?_, ?_, ?_, ?_, ?_⟩
  · rw [hs.2.1]
  · rw [hs.1]
  · rw [hs.2.2.1]
  · rw [hs.2.2.2.1]
  · rw [hs.2.2.2.2.1]
  · exact schedule_review_engine_analysis_index _
  · rw [hs.2.2.2.2.2.2.2.2.2.1]
  · rw [hs.2.2.2.2.2.2.2.2.2.2.1]
  · rw [hs.2.2.2.2.2.2.2.2.2.2.2]

/-- C9.  While the slider drag flag is set, no analysis request is scheduled
or dispatched: drag start cancels any pending debounce timer, navigation
during the drag leaves the timer set empty and the dispatch log unchanged,
and a timer fire mid-drag is a no-op.  On release, exactly one request is
scheduled, and its eventual dispatch is for the position at the final
cursor value (hypotheses: session facts, and the final position is not
cached). -/
theorem drag_suspends_scheduling (s : ReviewState) (js : List Int)
    (hw : s.review_window_exists = true) (hb : s.review_board_present = true)
    (he : s.engine_present = true)
    (ht : s.live_timers = s.review_after_id.toList)
    (hmiss : lookupKey
      (on_review_slider_release (js.foldl review_jump_to
        (on_review_slider_press s))).cache.entries
      (review_position (on_review_slider_release (js.foldl review_jump_to
        (on_review_slider_press s))),
       review_multipv (on_review_slider_release (js.foldl review_jump_to
        (on_review_slider_press s)))) = none) :
    (on_review_slider_press s).live_timers = [] ∧
    (on_review_slider_press s).review_after_id = none ∧
    (js.foldl review_jump_to (on_review_slider_press s)).dispatched = s.dispatched ∧
    (js.foldl review_jump_to (on_review_slider_press s)).live_timers = [] ∧
    fire_all_timers (js.foldl review_jump_to (on_review_slider_press s)) =
      js.foldl review_jump_to (on_review_slider_press s) ∧
    (on_review_slider_release (js.foldl review_jump_to
      (on_review_slider_press s))).live_timers =
      [(js.foldl review_jump_to (on_review_slider_press s)).next_timer_id] ∧
    (on_review_slider_release (js.foldl review_jump_to
      (on_review_slider_press s))).review_move_index =
      (js.foldl review_jump_to (on_review_slider_press s)).review_move_index ∧
    (fire_all_timers (on_review_slider_release (js.foldl review_jump_to
      (on_review_slider_press s)))).dispatched =
      s.dispatched ++
        [{ pos := review_position (on_review_slider_release (js.foldl review_jump_to
             (on_review_slider_press s))),
           multipv := review_multipv (on_review_slider_release (js.foldl review_jump_to
             (on_review_slider_press s))),
           think := review_think_time (on_review_slider_release (js.foldl review_jump_to
             (on_review_slider_press s))),
           token := (on_review_slider_release (js.foldl review_jump_to
             (on_review_slider_press s))).review_engine_token + 1,
           ply := (on_review_slider_release (js.foldl review_jump_to
             (on_review_slider_press s))).review_move_index }] := by
  obtain ⟨p1, p2, p3, p4, p5, p6, _, _, _, _, p11⟩ := press_spec s ht
  obtain ⟨m1, m2, m3⟩ := foldl_jump_dragging js (on_review_slider_press s) p3
  have hmd : (js.foldl review_jump_to (on_review_slider_press s)).dispatched =
      s.dispatched := by
    rw [m1.2.2.2.2.2.2.2.2.2.2.2, p11]
  have hml : (js.foldl review_jump_to (on_review_slider_press s)).live_timers = [] := by
    rw [m3, p1]
  have hmw : (js.foldl review_jump_to (on_review_slider_press s)).review_window_exists
      = true := by
    rw [m1.1, p4, hw]
  have hmb : (js.foldl review_jump_to (on_review_slider_press s)).review_board_present
      = true := by
    rw [m1.2.2.1, p5, hb]
  have hme : (js.foldl review_jump_to (on_review_slider_press s)).engine_present
      = true := by
    rw [m1.2.2.2.1, p6, he]
  have hmt : (js.foldl review_jump_to (on_review_slider_press s)).live_timers =
      (js.foldl review_jump_to (on_review_slider_press s)).review_after_id.toList := by
    rw [hml, m2, p2]
    rfl
  obtain ⟨r1, r2, _, r4, r5, r6, _, r8, _, _, r11⟩ :=
    release_spec (js.foldl review_jump_to (on_review_slider_press s)) hmw hmt
  obtain ⟨f1, _, _⟩ := fire_all_single
    (on_review_slider_release (js.foldl review_jump_to (on_review_slider_press s)))
    (js.foldl review_jump_to (on_review_slider_press s)).next_timer_id
    r2 (by rw [r4]; exact hmw)
    (by rw [r6]; exact hme) (by rw [r5]; exact hmb) hmiss
  refine ⟨p1, p2, hmd, hml, fire_all_empty _ hml, r2, r8, ?_⟩
  rw [f1, r11, hmd]

/-- Witness for C9: the demo session with one pending debounce timer, a
press, two drag jumps, a release, and the released timer firing. -/
theorem drag_suspends_scheduling_witness :
    (on_review_slider_press c9_state).live_timers = [] ∧
    (on_review_slider_press c9_state).review_after_id = none ∧
    (([(1 : Int), 2]).foldl review_jump_to (on_review_slider_press c9_state)).dispatched =
      c9_state.dispatched ∧
    (([(1 : Int), 2]).foldl review_jump_to (on_review_slider_press c9_state)).live_timers
      = [] ∧
    fire_all_timers (([(1 : Int), 2]).foldl review_jump_to (on_review_slider_press c9_state)) =
      ([(1 : Int), 2]).foldl review_jump_to (on_review_slider_press c9_state) ∧
    (on_review_slider_release (([(1 : Int), 2]).foldl review_jump_to
      (on_review_slider_press c9_state))).live_timers =
      [(([(1 : Int), 2]).foldl review_jump_to (on_review_slider_press c9_state)).next_timer_id] ∧
    (on_review_slider_release (([(1 : Int), 2]).foldl review_jump_to
      (on_review_slider_press c9_state))).review_move_index =
      (([(1 : Int), 2]).foldl review_jump_to (on_review_slider_press c9_state)).review_move_index ∧
    (fire_all_timers (on_review_slider_release (([(1 : Int), 2]).foldl review_jump_to
      (on_review_slider_press c9_state)))).dispatched =
      c9_state.dispatched ++
        [{ pos := review_position (on_review_slider_release (([(1 : Int), 2]).foldl
             review_jump_to (on_review_slider_press c9_state))),
           multipv := review_multipv (on_review_slider_release (([(1 : Int), 2]).foldl
             review_jump_to (on_review_slider_press c9_state))),
           think := review_think_time (on_review_slider_release (([(1 : Int), 2]).foldl
             review_jump_to (on_review_slider_press c9_state))),
           token := (on_review_slider_release (([(1 : Int), 2]).foldl review_jump_to
             (on_review_slider_press c9_state))).review_engine_token + 1,
           ply := (on_review_slider_release (([(1 : Int), 2]).foldl review_jump_to
             (on_review_slider_press c9_state))).review_move_index }] :=
  drag_suspends_scheduling c9_state [1, 2] (by decide) (by decide) (by decide)
    (by decide) (by decide)

/-- Witness for C4 at a concrete cache (the empty cache of `__init__`). -/
theorem cache_put_bounded_and_fifo_witness :
    (cachePut emptyCache ([], 1) ⟨0, "+0.00", [], []⟩).entries.length ≤ review_cache_max ∧
    CacheInvariant (cachePut emptyCache ([], 1) ⟨0, "+0.00", [], []⟩) ∧
    (emptyCache.entries.length = review_cache_max →
      ∀ x, (x ∈ cacheKeys emptyCache ∧
            x ∉ cacheKeys (cachePut emptyCache ([], 1) ⟨0, "+0.00", [], []⟩)) ↔
           emptyCache.order.head? = some x) :=
  cache_put_bounded_and_fifo emptyCache ([], 1) ⟨0, "+0.00", [], []⟩ emptyCache_invariant

theorem wellLocked_of_bounded (p : LProg)
    (h : ∀ k ≤ p.length, inCallAt p k = true → holdsAt p k = true) : WellLocked p := by
  intro k hk
  rcases le_or_lt k p.length with hle | hlt
  · exact h k hle hk
  · have htk : p.take k = p := List.take_of_length_le (le_of_lt hlt)
    have htl : p.take p.length = p := List.take_of_length_le (le_refl _)
    have hfull := h p.length (le_refl _)
      (by unfold inCallAt; rw [htl]; unfold inCallAt at hk; rw [htk] at hk; exact hk)
    unfold holdsAt at hfull ⊢
    rw [htl] at hfull
    rw [htk]
    exact hfull

theorem holdsB_section_append (p : LProg) : holdsB (lockSection ++ p) = holdsB p := by
  unfold holdsB lockSection
  rw [List.foldl_append]
  rfl

theorem inCallB_section_append (p : LProg) : inCallB (lockSection ++ p) = inCallB p := by
  unfold inCallB lockSection
  rw [List.foldl_append]
  rfl

theorem wellLocked_section_append (p : LProg) (hp : WellLocked p) :
    WellLocked (lockSection ++ p) := by
  intro k hk
  by_cases hk4 : k ≤ 4
  · have htake : (lockSection ++ p).take k = lockSection.take k :=
      List.take_append_of_le_length (by simpa [lockSection] using hk4)
    unfold inCallAt at hk
    unfold holdsAt
    rw [htake] at hk ⊢
    interval_cases k <;> revert hk <;> decide
  · push_neg at hk4
    obtain ⟨j, rfl⟩ : ∃ j, k = 4 + j := ⟨k - 4, by omega⟩
    have htake : (lockSection ++ p).take (4 + j) = lockSection ++ p.take j := by
      have hlen : lockSection.length = 4 := rfl
      rw [← hlen]
      exact List.take_append j
    unfold inCallAt at hk
    unfold holdsAt
    rw [htake] at hk ⊢
    rw [inCallB_section_append] at hk
    rw [holdsB_section_append]
    exact hp j hk

theorem wellLocked_sections (n : Nat) : WellLocked (sectionsProg n) := by
  induction n with
  | zero =>
    intro k hk
    simp [sectionsProg, inCallAt, inCallB] at hk
  | succ n ih => exact wellLocked_section_append _ ih

theorem holdsAt_succ_acq (p : LProg) (k : Nat) (h : p[k]? = some LInstr.acquireL) :
    holdsAt p (k + 1) = true := by
  unfold holdsAt holdsB
  rw [List.take_succ, h]
  simp [List.foldl_append]

theorem holdsAt_succ_rel (p : LProg) (k : Nat) (h : p[k]? = some LInstr.releaseL) :
    holdsAt p (k + 1) = false := by
  unfold holdsAt holdsB
  rw [List.take_succ, h]
  simp [List.foldl_append]

theorem holdsAt_succ_callB (p : LProg) (k : Nat) (h : p[k]? = some LInstr.callBeginL) :
    holdsAt p (k + 1) = holdsAt p k := by
  unfold holdsAt holdsB
  rw [List.take_succ, h]
  simp [List.foldl_append]

theorem holdsAt_succ_callE (p : LProg) (k : Nat) (h : p[k]? = some LInstr.callEndL) :
    holdsAt p (k + 1) = holdsAt p k := by
  unfold holdsAt holdsB
  rw [List.take_succ, h]
  simp [List.foldl_append]

theorem lInv_step {T : Type} [DecidableEq T] {prog : T → LProg} {s1 s2 : LSys T}
    (hstep : LStep prog s1 s2) (hinv : LInv prog s1) : LInv prog s2 := by
  cases hstep with
  | acq t hget hlock =>
    intro u
    by_cases hu : u = t
    · subst hu
      constructor
      · intro _
        rfl
      · intro _
        show holdsAt (prog u) (Function.update s1.pcs u (s1.pcs u + 1) u) = true
        rw [Function.update_same]
        exact holdsAt_succ_acq _ _ hget
    · constructor
      · intro hc
        have hcu : holdsAt (prog u) (Function.update s1.pcs t (s1.pcs t + 1) u) = true := hc
        rw [Function.update_noteq hu _ _] at hcu
        have hl := (hinv u).mp hcu
        rw [hlock] at hl
        exact absurd hl (by simp)
      · intro hc
        exact absurd ((Option.some.inj hc).symm) hu
  | rel t hget hlock =>
    intro u
    by_cases hu : u = t
    · subst hu
      constructor
      · intro hc
        have hcu : holdsAt (prog u) (Function.update s1.pcs u (s1.pcs u + 1) u) = true := hc
        rw [Function.update_same, holdsAt_succ_rel _ _ hget] at hcu
        exact absurd hcu (by simp)
      · intro hc
        exact absurd hc (by simp)
    · constructor
      · intro hc
        have hcu : holdsAt (prog u) (Function.update s1.pcs t (s1.pcs t + 1) u) = true := hc
        rw [Function.update_noteq hu _ _] at hcu
        have hl := (hinv u).mp hcu
        rw [hlock] at hl
        exact absurd ((Option.some.inj hl).symm) hu
      · intro hc
        exact absurd hc (by simp)
  | callB t hget =>
    intro u
    by_cases hu : u = t
    · subst hu
      show holdsAt (prog u) (Function.update s1.pcs u (s1.pcs u + 1) u) = true ↔
        s1.lock = some u
      rw [Function.update_same, holdsAt_succ_callB _ _ hget]
      exact hinv u
    · show holdsAt (prog u) (Function.update s1.pcs t (s1.pcs t + 1) u) = true ↔
        s1.lock = some u
      rw [Function.update_noteq hu _ _]
      exact hinv u
  | callE t hget =>
    intro u
    by_cases hu : u = t
    · subst hu
      show holdsAt (prog u) (Function.update s1.pcs u (s1.pcs u + 1) u) = true ↔
        s1.lock = some u
      rw [Function.update_same, holdsAt_succ_callE _ _ hget]
      exact hinv u
    · show holdsAt (prog u) (Function.update s1.pcs t (s1.pcs t + 1) u) = true ↔
        s1.lock = some u
      rw [Function.update_noteq hu _ _]
      exact hinv u

theorem lInv_reachable {T : Type} [DecidableEq T] {prog : T → LProg} {s : LSys T}
    (h : LReachable prog s) : LInv prog s := by
  unfold LReachable at h
  induction h with
  | refl =>
    intro t
    constructor
    · intro hc
      simp [lInit, holdsAt, holdsB] at hc
    · intro hc
      simp [lInit] at hc
  | tail _ hstep ih => exact lInv_step hstep ih

theorem wellLocked_lockSection : WellLocked lockSection :=
  wellLocked_of_bounded _ (by decide)

theorem wellLocked_progOf (c : EngineCallSite) : WellLocked (progOf c) := by
  cases c <;> first
    | exact wellLocked_lockSection
    | exact wellLocked_sections _

/-- C1.  Every engine call of the repository (hint `play`, live evaluation,
AI move, review `analyse`, move-classification `analyse`) executes inside
`with self.engine_lock:` (each call-site program is `WellLocked`), and
therefore in every reachable interleaving of any family of such workers at
most one engine call is executing at any instant: two threads observed
mid-call are the same thread. -/
theorem engine_lock_mutual_exclusion {T : Type} [DecidableEq T]
    (assign : T → EngineCallSite) (s : LSys T)
    (hreach : LReachable (fun t => progOf (assign t)) s)
    (t1 t2 : T)
    (h1 : inCallAt (progOf (assign t1)) (s.pcs t1) = true)
    (h2 : inCallAt (progOf (assign t2)) (s.pcs t2) = true) :
    t1 = t2 := by
  have hinv := lInv_reachable hreach
  have g1 := (hinv t1).mp (wellLocked_progOf (assign t1) _ h1)
  have g2 := (hinv t2).mp (wellLocked_progOf (assign t2) _ h2)
  rw [g1] at g2
  exact Option.some.inj g2

/-- Witness for C1: with two hint workers, the state where the first has
acquired `engine_lock` and is mid-call is reachable, and any two threads
observed mid-call there coincide. -/
theorem engine_lock_mutual_exclusion_witness :
    LReachable (fun _ : Bool => progOf EngineCallSite.hint_play) c1_state ∧
    inCallAt (progOf EngineCallSite.hint_play) (c1_state.pcs true) = true ∧
    true = true := by
  have hreach : LReachable (fun _ : Bool => progOf EngineCallSite.hint_play) c1_state :=
    Relation.ReflTransGen.tail
      (Relation.ReflTransGen.tail Relation.ReflTransGen.refl
        (LStep.acq (lInit Bool) true (by decide) rfl))
      (LStep.callB
        { lock := some true,
          pcs := Function.update (lInit Bool).pcs true ((lInit Bool).pcs true + 1) }
        true (by decide))
  exact ⟨hreach, by decide,
    engine_lock_mutual_exclusion (fun _ => EngineCallSite.hint_play) c1_state hreach
      true true (by decide) (by decide)⟩

end Chessy
